import Mathlib

/-!
Verification development for the AgileMind agent execution and hand-off engine.

Shallow embedding of:
  * `src/agilemind/execution/agent.py` — `Agent.process`, `Agent._process_with_retry`,
    `Agent._prepare_messages` (the conversation loop, tool dispatch and hand-off
    state machine);
  * `src/agilemind/context/context.py` — `Context` (class-level collections,
    `add_history`, `set_document`, `update_token_usage`, instance construction).

External collaborators that the loop consumes (the OpenAI completion client,
`json.loads` / `json.dumps`, `execute_tool`) are modelled as oracle inputs: the
completion client is a script of per-call outcomes, and the JSON codec and tool
invoker are functions supplied in an `Env` record.  Parts of the repository that
the claims depend on but that are not present under `src/` (the `retry`
decorator from `agilemind/utils`, the `TokenUsage` accumulator from
`agilemind/context/token_usage.py`, `execute_tool` from `agilemind/tool`) are
modelled from the spec; their doc comments say so explicitly.

Monetary-cost accounting (`calculate_cost`, the `Cost` accumulator,
`Context.update_cost`) parallels the token accounting line for line, lives
outside `src/`, uses floating point, and is referenced by no claim; it is
omitted from the embedding.  Wall-clock timestamps (`datetime.now()` strings
stored by `Context.add_history` / `add_used_tool`) are likewise not modelled.
Python `print` logging, `rich` rendering and `save_response` file I/O have no
effect on any claimed behavior and are omitted.
-/

namespace AgileMind

/-- Python `str.startswith`: Python strings index by characters, so this is
prefix testing on the character list. -/
def pyStartsWith (s pre : String) : Bool :=
  pre.data.isPrefixOf s.data

/-- Python slicing `s[n:]` (by characters). -/
def pyDrop (s : String) (n : Nat) : String :=
  ⟨s.data.drop n⟩

/-- A parsed JSON object (the result of `json.loads` on a tool call's
`arguments` string), as far as the agent loop inspects it: a key/value mapping
with string values.  `get` is Python `dict.get(key, default)`. -/
structure JsonObj where
  fields : List (String × String)
deriving DecidableEq

def JsonObj.get (o : JsonObj) (k dflt : String) : String :=
  match o.fields.find? (fun kv => kv.1 == k) with
  | some kv => kv.2
  | none => dflt

/-- Modelled from the spec: `execute_tool` (`agilemind/tool`, not under `src/`)
"always returns, never raises across this boundary for application-level tool
failures"; a tool failure "is captured as a normal tool result (success=false)".
So a tool invocation yields a structured value with a success flag. -/
structure ToolResult where
  success : Bool
  payload : String
deriving DecidableEq

/-- Token counters of one completion response (`response.usage`). -/
structure Usage where
  prompt_tokens : Nat
  completion_tokens : Nat
  total_tokens : Nat
deriving DecidableEq

/-- `tool_call.function` of a completion response: a tool name and the raw
JSON-encoded argument string. -/
structure FnCall where
  name : String
  arguments : String
deriving DecidableEq

/-- One requested tool call of a completion response. -/
structure ToolCall where
  id : String
  function : FnCall
deriving DecidableEq

/-- One model turn returned by the completion client
(`response.choices[0].message` plus `response.usage`). -/
structure Response where
  content : Option String
  tool_calls : List ToolCall
  usage : Option Usage
deriving DecidableEq

/-- A hand-off target as the loop sees it: an entry of the agent's `handoffs`
list, identified by its `name` (the only attribute the dispatch logic reads). -/
structure AgentRef where
  name : String
deriving DecidableEq

/-- Static configuration of an `Agent` (the constructor attributes that the
conversation loop reads). -/
structure AgentCfg where
  name : String
  instructions : String
  handoffs : List AgentRef
  next_agent : Option AgentRef
  model : String
  multi_turn : Bool

/-- The conversation transcript entries built by the loop
(`messages` in `_process_with_retry` / `_prepare_messages`). -/
inductive Msg where
  | system (content : String)
  | user (content : String)
  | assistantTool (content : Option String) (id : String) (name : String) (arguments : String)
  | tool (tool_call_id : String) (content : String)
deriving DecidableEq

/-- `self.memory.append(m)` guarded by `if m not in self.memory` (lines
405-408 of agent.py). -/
def memAppend (mem : List Msg) (m : Msg) : List Msg :=
  if m ∈ mem then mem else mem ++ [m]

/-- An executed tool call as recorded in a round
(`{"tool": ..., "args": ..., "result": ...}`). -/
structure ToolCallRecord where
  tool : String
  args : JsonObj
  result : ToolResult
deriving DecidableEq

/-- One round record (the `current_round` dict of `_process_with_retry`;
the monetary `cost` key is omitted, see the header comment). -/
structure Round where
  input : String
  output : Option String := none
  tool_calls : Option (List ToolCallRecord) := none
  handoff : Option String := none
  token_usage : Option Usage := none
  reason : Option String := none
deriving DecidableEq

/-- A fresh `current_round` dict for a given input. -/
def freshRound (input : String) : Round :=
  { input := input }

/-- Modelled from the spec: `TokenUsage` (`agilemind/context/token_usage.py`,
not under `src/`).  The spec describes it as a running accumulator "keyed by
(agentName, roundNumber, model); monotonically increasing; never reset during a
run", with a `total` compared against per-round sums.  `update` receives prompt
and completion counts (see `Context.update_token_usage`) and accumulates them,
recording one detail entry per call. -/
structure TokenUsageEntry where
  agent_name : String
  round_number : Nat
  model : String
  prompt_tokens : Nat
  completion_tokens : Nat
deriving DecidableEq

structure TokenUsage where
  prompt_tokens : Nat := 0
  completion_tokens : Nat := 0
  total_tokens : Nat := 0
  details : List TokenUsageEntry := []
deriving DecidableEq

def TokenUsage.update (t : TokenUsage) (prompt completion : Nat)
    (agent : String) (round : Nat) (model : String) : TokenUsage :=
  { prompt_tokens := t.prompt_tokens + prompt
    completion_tokens := t.completion_tokens + completion
    total_tokens := t.total_tokens + prompt + completion
    details := t.details ++ [⟨agent, round, model, prompt, completion⟩] }

/-- Instance attributes of a `Context` object: exactly the attributes that
`Context.__init__` assigns (`root_dir`, `raw_demand`, `token_usage`; the
wall-clock `time` string and the `cost` accumulator are not modelled, see the
header comment).  The class-level collections live in `ClassVars` below. -/
structure ContextInst where
  root_dir : Option String
  raw_demand : String
  token_usage : TokenUsage
deriving DecidableEq

/-- `Context.update_token_usage` (context.py lines 110-134): delegates to
`self.token_usage.update`. -/
def ContextInst.update_token_usage (c : ContextInst) (prompt_tokens completion_tokens : Nat)
    (agent_name : String) (round_number : Nat) (model : String) : ContextInst :=
  { c with token_usage :=
      c.token_usage.update prompt_tokens completion_tokens agent_name round_number model }

/-- Possible exceptions escaping `_process_with_retry`.  `providerError`
stands for the `openai` exception classes listed on the `retry` decorator
(APIError, APIConnectionError, RateLimitError, APITimeoutError,
InternalServerError); `jsonDecodeError` is `json.JSONDecodeError` raised by
`json.loads` on malformed tool arguments; `indexError` is the `IndexError`
raised by `self.rounds[-1]` when the loop ran zero rounds. -/
inductive AgentError where
  | providerError
  | jsonDecodeError
  | indexError
deriving DecidableEq

/-- External functions the loop calls, supplied as oracles.
`jsonLoads` models `json.loads` on an argument string (`none` =
`json.JSONDecodeError`); `executeTool` models `execute_tool(context, name,
args)` — modelled from the spec, it returns a structured result and never
raises, and per the ToolInvoker interface it does not touch the run context's
history (history receives exactly one entry per completed `Agent.process`
call); `dumpsToolResult` models `json.dumps` on a tool result. -/
structure Env where
  jsonLoads : String → Option JsonObj
  executeTool : String → JsonObj → ToolResult
  dumpsToolResult : ToolResult → String

/-- The mutable local state of one `_process_with_retry` invocation, threaded
through the conversation loop. -/
structure LoopSt where
  messages : List Msg
  memory : List Msg
  ctx : ContextInst
  rounds : List Round
  current : Round
  totals : Usage
  final_output : Option String
  final_reason : Option String
  handoff_target : Option AgentRef
  handoff_instructions : Option String
  round_number : Nat
  last_tool_result : Option ToolResult
deriving DecidableEq

/-- Result of iterating over one response's `tool_calls` (agent.py lines
343-408): a possible exception, the updated loop state, the
`handoff_requested` flag, the `work_done_called` flag and the
`current_round_tool_calls` accumulator. -/
structure TCOut where
  err : Option AgentError
  st : LoopSt
  handoffReq : Bool
  workDone : Bool
  acc : List ToolCallRecord
deriving DecidableEq

/-- The `for tool_call in response_message.tool_calls` loop of
`_process_with_retry` (agent.py lines 344-408).  A hand-off request whose
target name matches an entry of `handoffs` breaks out of the loop
(`handoff_requested`); a hand-off naming an unknown target is skipped (but
still overwrites `handoff_instructions`); `work_done` marks the flag and keeps
iterating; any other call is dispatched through `execute_tool`, appended to the
round's record, to the transcript and (deduplicated) to the memory.
`json.loads` failure raises `json.JSONDecodeError` out of the loop. -/
def processToolCalls (env : Env) (a : AgentCfg) (respContent : Option String) :
    List ToolCall → LoopSt → Bool → List ToolCallRecord → TCOut
  | [], st, workDone, acc => ⟨none, st, false, workDone, acc⟩
  | tc :: rest, st, workDone, acc =>
    let toolName := tc.function.name
    if pyStartsWith toolName "handoff_to_" then
      let target := pyDrop toolName 11
      match env.jsonLoads tc.function.arguments with
      | none => ⟨some .jsonDecodeError, st, false, workDone, acc⟩
      | some args =>
        let st := { st with handoff_instructions := some (args.get "instructions" "") }
        match a.handoffs.find? (fun ag => ag.name == target) with
        | some ag =>
          ⟨none,
           { st with
              current := { st.current with handoff := some ag.name, reason := some "handoff" }
              handoff_target := some ag
              final_reason := some "handoff" },
           true, workDone, acc⟩
        | none => processToolCalls env a respContent rest st workDone acc
    else if toolName = "work_done" then
      processToolCalls env a respContent rest
        { st with
            current := { st.current with reason := some "work_done" }
            final_reason := some "work_done" }
        true acc
    else
      match env.jsonLoads tc.function.arguments with
      | none => ⟨some .jsonDecodeError, st, false, workDone, acc⟩
      | some args =>
        let r := env.executeTool toolName args
        let m1 : Msg := .assistantTool respContent tc.id toolName tc.function.arguments
        let m2 : Msg := .tool tc.id (env.dumpsToolResult r)
        processToolCalls env a respContent rest
          { st with
              messages := st.messages ++ [m1, m2]
              memory := memAppend (memAppend st.memory m1) m2
              last_tool_result := some r }
          workDone (acc ++ [⟨toolName, args, r⟩])

/-- The `while` guard (agent.py line 255):
`max_iterations is None or round_number < max_iterations`. -/
def loopCond (maxIter : Option Nat) (round_number : Nat) : Bool :=
  match maxIter with
  | none => true
  | some n => round_number < n

/-- `max_iterations is not None and round_number >= max_iterations`
(agent.py lines 418 and 433).  `max_iterations` is modelled as an optional
natural number; a non-positive Python int behaves like `0` (the loop body is
never entered). -/
def atMax (maxIter : Option Nat) (round_number : Nat) : Bool :=
  match maxIter with
  | none => false
  | some n => n ≤ round_number

/-- Mutate `self.rounds[-1]["reason"]` (agent.py lines 424, 441, 463). -/
def setLastReason (rs : List Round) (reason : String) : List Round :=
  match rs.getLast? with
  | none => rs
  | some r => rs.dropLast ++ [{ r with reason := some reason }]

/-- Mutate `self.rounds[-1]["handoff"]` (agent.py line 460). -/
def setLastHandoff (rs : List Round) (name : String) : List Round :=
  match rs.getLast? with
  | none => rs
  | some r => rs.dropLast ++ [{ r with handoff := some name }]

/-- `reason` of the last recorded round, `none` when no round was recorded. -/
def lastRoundReason (rs : List Round) : Option String :=
  match rs.getLast? with
  | none => none
  | some r => r.reason

/-- Lines 256-336 of the loop body: increment the round counter, record the
response content as the running final output and into the current round, and —
when the response carries usage — accumulate token counts into the attempt's
totals, the round record and the shared context.  (A Python falsy reason is
`None` here: the loop only ever stores non-empty reason strings.) -/
def accountRound (a : AgentCfg) (resp : Response) (rn : Nat) (st : LoopSt) : LoopSt :=
  let st := { st with
      round_number := rn
      final_output := resp.content
      current := { st.current with output := resp.content } }
  match resp.usage with
  | some u =>
    { st with
        totals :=
          { prompt_tokens := st.totals.prompt_tokens + u.prompt_tokens
            completion_tokens := st.totals.completion_tokens + u.completion_tokens
            total_tokens := st.totals.total_tokens + u.total_tokens }
        current := { st.current with token_usage := some u }
        ctx := st.ctx.update_token_usage u.prompt_tokens u.completion_tokens a.name rn a.model }
  | none => st

/-- Lines 410-415: store the executed tool calls on the round (only when any
were executed) and append a copy of the round to `self.rounds`. -/
def recordRound (o : TCOut) : LoopSt :=
  let st :=
    if o.acc.isEmpty then o.st
    else { o.st with current := { o.st.current with tool_calls := some o.acc } }
  { st with rounds := st.rounds ++ [st.current] }

/-- Lines 417-424: the round-limit check — if this round hit `max_iterations`
and no reason is set yet, stamp `round_limit` on the round (both the working
dict and the recorded copy) and on the final reason. -/
def limitRound (maxIter : Option Nat) (rn : Nat) (st : LoopSt) : LoopSt :=
  if atMax maxIter rn && st.current.reason.isNone then
    { st with
        current := { st.current with reason := some "round_limit" }
        final_reason := some "round_limit"
        rounds := setLastReason st.rounds "round_limit" }
  else st

/-- Lines 429-435: the `while`-break condition. -/
def brkCond (a : AgentCfg) (maxIter : Option Nat) (rn : Nat) (o : TCOut) : Bool :=
  o.acc.isEmpty || o.handoffReq || o.workDone || atMax maxIter rn || !a.multi_turn

/-- Lines 436-441: when breaking without a reason, stamp `completed` (on the
working dict, the recorded copy and the final reason). -/
def completeRound (st : LoopSt) : LoopSt :=
  if st.current.reason.isNone then
    { st with
        current := { st.current with reason := some "completed" }
        final_reason := some "completed"
        rounds := setLastReason st.rounds "completed" }
  else st

/-- Lines 444-454: the next round's input is the JSON dump of the last
executed tool result (the `tool_result` local; always set on this path since
the loop only continues after executing at least one ordinary tool call). -/
def nextRound (env : Env) (st : LoopSt) : LoopSt :=
  { st with
      current :=
        freshRound ("Tool results: " ++ ((st.last_tool_result.map env.dumpsToolResult).getD "")) }

/-- Lines 410-454 of the loop body, after the tool-call iteration: record the
round, apply the round-limit check, then either break (stamping `completed` if
no reason was set) or prepare the next round. -/
def finishRound (env : Env) (a : AgentCfg) (maxIter : Option Nat) (rn : Nat)
    (o : TCOut) : Option AgentError × LoopSt × Bool :=
  let st := limitRound maxIter rn (recordRound o)
  if brkCond a maxIter rn o then (none, completeRound st, true)
  else (none, nextRound env st, false)

/-- One iteration of the conversation loop body (agent.py lines 256-454):
`accountRound`, then the tool-call iteration, then `finishRound`.  The
returned `Bool` is whether the `while` loop breaks; the `Option AgentError` is
an exception escaping the body (in which case nothing past the failing
statement runs — in particular the round is not appended to `self.rounds`,
though the context already received its token usage). -/
def processRound (env : Env) (a : AgentCfg) (maxIter : Option Nat)
    (resp : Response) (st : LoopSt) : Option AgentError × LoopSt × Bool :=
  let rn := st.round_number + 1
  let st := accountRound a resp rn st
  let o := processToolCalls env a resp.content resp.tool_calls st false []
  match o.err with
  | some e => (some e, o.st, true)
  | none => finishRound env a maxIter rn o

/-- One step of the completion client: `none` models a transient provider
exception raised by `chat.completions.create` (one of the `openai` error
classes on the retry list); `some r` is a successful response. -/
abbrev ClientStep := Option Response

/-- Outcome of the conversation `while` loop: a possible escaping exception,
the loop state at exit, and the unconsumed remainder of the client script. -/
structure LoopOut where
  err : Option AgentError
  st : LoopSt
  rest : List ClientStep
deriving DecidableEq

/-- The conversation `while` loop (agent.py lines 255-454).  The guard is
checked before each completion request; each executed iteration consumes one
entry of the client script, and an exhausted script is a provider failure (the
stubbed client has no behavior left to offer).  The three script patterns
share the same guard check, written per pattern so that each case is its own
equation. -/
def runLoop (env : Env) (a : AgentCfg) (maxIter : Option Nat) :
    List ClientStep → LoopSt → LoopOut
  | [], st =>
    if loopCond maxIter st.round_number then ⟨some .providerError, st, []⟩
    else ⟨none, st, []⟩
  | none :: rest, st =>
    if loopCond maxIter st.round_number then ⟨some .providerError, st, rest⟩
    else ⟨none, st, none :: rest⟩
  | some resp :: rest, st =>
    if loopCond maxIter st.round_number then
      match processRound env a maxIter resp st with
      | (some e, st', _) => ⟨some e, st', rest⟩
      | (none, st', true) => ⟨none, st', rest⟩
      | (none, st', false) => runLoop env a maxIter rest st'
    else ⟨none, st, some resp :: rest⟩

/-- `Agent._prepare_messages` (agent.py lines 487-518): returns the transcript
and the updated memory. -/
def prepareMessages (a : AgentCfg) (memory : List Msg) (input_text : String)
    (clear_memory : Bool) : List Msg × List Msg :=
  let memory := if clear_memory then [] else memory
  let messages := [Msg.system a.instructions] ++ memory ++ [Msg.user input_text]
  let memory := if clear_memory then memory else memAppend memory (Msg.user input_text)
  (messages, memory)

/-- Initial loop state of one `_process_with_retry` attempt (agent.py lines
203-251): fresh transcript, empty rounds list, zeroed totals. -/
def initLoopSt (a : AgentCfg) (memory : List Msg) (ctx : ContextInst)
    (input_text : String) (clear_memory : Bool) : LoopSt :=
  let pm := prepareMessages a memory input_text clear_memory
  { messages := pm.1
    memory := pm.2
    ctx := ctx
    rounds := []
    current := freshRound input_text
    totals := ⟨0, 0, 0⟩
    final_output := none
    final_reason := none
    handoff_target := none
    handoff_instructions := none
    round_number := 0
    last_tool_result := none }

/-- The result dict of `_process_with_retry` (agent.py lines 466-483); the
monetary `cost` half of `usage` is omitted, see the header comment. -/
structure HandoffInfo where
  «to» : AgentRef
  instruction : String
deriving DecidableEq

structure ProcResult where
  input : String
  output : Option String
  usage : Usage
  reason : Option String
  handoff : Option HandoffInfo
deriving DecidableEq

/-- Outcome of one `_process_with_retry` attempt: a possible exception, the
result (exactly when no exception), the agent's `memory` and `rounds` instance
attributes after the attempt, the context (note: token usage recorded before an
exception is kept — the context is not rolled back), and the unconsumed client
script. -/
structure AttemptOut where
  err : Option AgentError
  result : Option ProcResult
  memory : List Msg
  rounds : List Round
  ctx : ContextInst
  rest : List ClientStep
deriving DecidableEq

/-- The forced-successor override, agent.py lines 456-464: when `next_agent`
is set, overwrite the last round's hand-off (raising `IndexError` when the
loop ran zero rounds and `self.rounds` is empty), make it the hand-off target,
and — unless the last round's reason is `work_done` — restamp the last round's
and the final reason as `handoff`.  Returns the possible exception, the
updated rounds, the final reason and the hand-off target. -/
def applyNextAgent (a : AgentCfg) (st : LoopSt) :
    Option AgentError × List Round × Option String × Option AgentRef :=
  match a.next_agent with
  | some na =>
    if st.rounds.isEmpty then (some .indexError, st.rounds, st.final_reason, none)
    else
      let rounds := setLastHandoff st.rounds na.name
      if lastRoundReason st.rounds ≠ some "work_done" then
        (none, setLastReason rounds "handoff", some "handoff", some na)
      else
        (none, rounds, st.final_reason, some na)
  | none => (none, st.rounds, st.final_reason, st.handoff_target)

/-- The result dict of agent.py lines 466-483. -/
def buildResult (input_text : String) (st : LoopSt) (final_reason : Option String)
    (handoff_target : Option AgentRef) : ProcResult :=
  { input := input_text
    output := st.final_output
    usage := st.totals
    reason := final_reason
    handoff :=
      match handoff_target with
      | some t => some ⟨t, st.handoff_instructions.getD ""⟩
      | none => none }

/-- The body of `Agent._process_with_retry` (agent.py lines 178-485): prepare
the transcript, run the conversation loop, then apply the forced `next_agent`
override and build the result dict. -/
def processOnce (env : Env) (a : AgentCfg) (memory : List Msg) (ctx : ContextInst)
    (script : List ClientStep) (input_text : String) (maxIter : Option Nat)
    (clear_memory : Bool) : AttemptOut :=
  let out := runLoop env a maxIter script (initLoopSt a memory ctx input_text clear_memory)
  match out.err with
  | some e => ⟨some e, none, out.st.memory, out.st.rounds, out.st.ctx, out.rest⟩
  | none =>
    match applyNextAgent a out.st with
    | (some e, rounds, _, _) => ⟨some e, none, out.st.memory, rounds, out.st.ctx, out.rest⟩
    | (none, rounds, final_reason, handoff_target) =>
      ⟨none, some (buildResult input_text out.st final_reason handoff_target),
        out.st.memory, rounds, out.st.ctx, out.rest⟩

/-- Which exceptions the `retry` decorator on `_process_with_retry` catches
(agent.py lines 168-177): the `openai` transient errors and
`json.JSONDecodeError`; `IndexError` is not on the list and propagates. -/
def retryable : AgentError → Bool
  | .providerError => true
  | .jsonDecodeError => true
  | .indexError => false

/-- Modelled from the spec: the `retry` decorator (`agilemind/utils`, not under
`src/`) retries the wrapped call "with the same input a bounded number of times
using a backoff policy; exhausting retries surfaces the failure to the caller".
`retries` is the number of retries allowed after the first attempt.  Backoff
delays have no effect on state.  Each attempt re-runs `_process_with_retry`
from the top against the agent's (possibly mutated) memory, the shared context
as the failed attempt left it, and the rest of the client script. -/
def processRetry (env : Env) (a : AgentCfg) :
    Nat → List Msg → ContextInst → List ClientStep → String → Option Nat → Bool → AttemptOut
  | 0, memory, ctx, script, input_text, maxIter, clear_memory =>
    processOnce env a memory ctx script input_text maxIter clear_memory
  | Nat.succ k, memory, ctx, script, input_text, maxIter, clear_memory =>
    let out := processOnce env a memory ctx script input_text maxIter clear_memory
    match out.err with
    | some e =>
      if retryable e then
        processRetry env a k out.memory out.ctx out.rest input_text maxIter clear_memory
      else out
    | none => out

/-- One history entry appended by `Context.add_history` (context.py lines
68-85); the `time` string is not modelled. -/
structure HistoryEntry where
  step : String
  data : ProcResult
deriving DecidableEq

/-- One audit entry appended by `Context.add_used_tool` (context.py lines
87-108); the `time` string is not modelled. -/
structure UsedTool where
  tool_name : String
  params : JsonObj
  result : ToolResult
deriving DecidableEq

/-- The class-level attributes of `Context` (context.py lines 16-23):
`document`, `history` and `used_tools` are declared with mutable defaults at
class level and are never re-assigned by `__init__`, so in Python they are a
single set of collections shared by every `Context` instance.  The embedding
keeps them in this separate record, threaded alongside instances. -/
structure ClassVars where
  document : List (String × String) := []
  history : List HistoryEntry := []
  used_tools : List UsedTool := []
deriving DecidableEq

/-- `Context.add_history` (context.py lines 68-85). -/
def addHistory (cv : ClassVars) (step : String) (data : ProcResult) : ClassVars :=
  { cv with history := cv.history ++ [⟨step, data⟩] }

/-- Python dict set-or-overwrite `self.document[key] = value`
(context.py line 54), on an insertion-ordered association list. -/
def setAssoc (l : List (String × String)) (k v : String) : List (String × String) :=
  if l.any (fun kv => kv.1 == k) then
    l.map (fun kv => if kv.1 == k then (kv.1, v) else kv)
  else l ++ [(k, v)]

/-- `Context.set_document` (context.py lines 43-54). -/
def setDocument (cv : ClassVars) (k v : String) : ClassVars :=
  { cv with document := setAssoc cv.document k v }

/-- `Context.__init__` (context.py lines 25-37): assigns only the instance
attributes `root_dir`, `raw_demand`, `time`, `token_usage`, `cost` — the
class-level collections of `ClassVars` are left untouched, so a "freshly
constructed" context observes whatever the shared collections already hold. -/
def contextInit (cv : ClassVars) (raw_demand : String) (root_dir : Option String) :
    ContextInst × ClassVars :=
  ({ root_dir := root_dir, raw_demand := raw_demand, token_usage := {} }, cv)

/-- Outcome of the public `Agent.process` (agent.py lines 137-166). -/
structure ProcessOut where
  err : Option AgentError
  result : Option ProcResult
  memory : List Msg
  rounds : List Round
  ctx : ContextInst
  cv : ClassVars
  rest : List ClientStep
deriving DecidableEq

/-- `Agent.process` (agent.py lines 137-166): run the retry-wrapped
`_process_with_retry`, then append one history entry holding the agent's name
and a (shallow) copy of the entire result.  An escaping exception reaches the
caller and no history entry is appended. -/
def Agent.process (env : Env) (a : AgentCfg) (retries : Nat) (cv : ClassVars)
    (memory : List Msg) (ctx : ContextInst) (script : List ClientStep)
    (input_text : String) (maxIter : Option Nat) (clear_memory : Bool) : ProcessOut :=
  let out := processRetry env a retries memory ctx script input_text maxIter clear_memory
  match out.result with
  | some r =>
    ⟨none, some r, out.memory, out.rounds, out.ctx, addHistory cv a.name r, out.rest⟩
  | none => ⟨out.err, none, out.memory, out.rounds, out.ctx, cv, out.rest⟩

/-! ### Sums of recorded per-round token usage (spec section 8) -/

/-- Sum of `round.token_usage.prompt_tokens` over recorded rounds (a round
whose response carried no usage contributes nothing). -/
def roundPromptSum (rs : List Round) : Nat :=
  (rs.map (fun r => ((r.token_usage.map Usage.prompt_tokens).getD 0))).sum

def roundCompletionSum (rs : List Round) : Nat :=
  (rs.map (fun r => ((r.token_usage.map Usage.completion_tokens).getD 0))).sum

def roundTotalSum (rs : List Round) : Nat :=
  (rs.map (fun r => ((r.token_usage.map Usage.total_tokens).getD 0))).sum

/-- One client-script step is well formed when, if it is a successful response
carrying usage, that usage satisfies
`total_tokens = prompt_tokens + completion_tokens` (the provider invariant;
the code assumes it implicitly by accumulating the response's `total_tokens`
into round records but only `prompt + completion` into the context). -/
def wfStep : ClientStep → Bool
  | some r =>
    match r.usage with
    | some u => u.total_tokens == u.prompt_tokens + u.completion_tokens
    | none => true
  | none => true

/-- A client script is well formed when every step is. -/
def WfScript (script : List ClientStep) : Prop :=
  ∀ step ∈ script, wfStep step = true

/-! ### Concrete fixtures used by witnesses and counterexamples -/

/-- A concrete oracle environment: `jsonLoads` fails exactly on the string
`"BAD"` and otherwise yields an object whose `instructions` key holds the raw
argument string; `executeTool` fails exactly for the tool named
`"failing_tool"`. -/
def testEnv : Env :=
  { jsonLoads := fun s => if s = "BAD" then none else some ⟨[("instructions", s)]⟩
    executeTool := fun n _ => if n = "failing_tool" then ⟨false, "boom"⟩ else ⟨true, "ok"⟩
    dumpsToolResult := fun r => (if r.success then "success:" else "failure:") ++ r.payload }

def agentB : AgentRef := ⟨"b"⟩

/-- An agent with one allowed hand-off target and no forced successor. -/
def agentPlain : AgentCfg :=
  { name := "a", instructions := "sys", handoffs := [agentB], next_agent := none,
    model := "m", multi_turn := false }

/-- `agentPlain` with `multi_turn := true`. -/
def agentMulti : AgentCfg :=
  { agentPlain with multi_turn := true }

/-- `agentPlain` with a forced successor. -/
def agentForced : AgentCfg :=
  { agentPlain with next_agent := some agentB }

def ctx0 : ContextInst := { root_dir := none, raw_demand := "d", token_usage := {} }

/-- A plain text response with token usage 1/2/3. -/
def respText : Response := { content := some "hi", tool_calls := [], usage := some ⟨1, 2, 3⟩ }

/-- A response requesting a regular tool call first and then a hand-off to
`b`. -/
def respToolThenHandoff : Response :=
  { content := none
    tool_calls := [⟨"id1", ⟨"write_file", "argsA"⟩⟩, ⟨"id2", ⟨"handoff_to_b", "doX"⟩⟩]
    usage := none }

/-- A response carrying usage 1/2/3 whose tool call has malformed JSON
arguments (`json.loads` raises). -/
def respBadJson : Response :=
  { content := none, tool_calls := [⟨"id9", ⟨"write_file", "BAD"⟩⟩], usage := some ⟨1, 2, 3⟩ }

/-- A response requesting one ordinary (successfully executing) tool call. -/
def respOneTool : Response :=
  { content := some "working", tool_calls := [⟨"id3", ⟨"write_file", "argsB"⟩⟩], usage := none }

def sampleResult : ProcResult :=
  { input := "x", output := some "y", usage := ⟨0, 0, 0⟩, reason := some "completed",
    handoff := none }

/-- Fixture tool-call lists for the hand-off short-circuit claims. -/
def preCalls : List ToolCall := [⟨"id1", ⟨"write_file", "argsA"⟩⟩]

def hcCall : ToolCall := ⟨"id2", ⟨"handoff_to_b", "doX"⟩⟩

def postCalls : List ToolCall := [⟨"id4", ⟨"another_tool", "argsZ"⟩⟩]

/-- Fresh attempt state for `agentPlain` on input `"go"`. -/
def stGo : LoopSt := initLoopSt agentPlain [] ctx0 "go" true

/-- Fresh attempt state for `agentMulti` on input `"go"`. -/
def stMulti : LoopSt := initLoopSt agentMulti [] ctx0 "go" true

/-- A tool call whose execution fails under `testEnv`. -/
def tcFail : ToolCall := ⟨"id7", ⟨"failing_tool", "argsF"⟩⟩

/-- Result of `agentPlain` processing `"hello"` against `[some respText]`. -/
def resultHello : ProcResult :=
  { input := "hello", output := some "hi", usage := ⟨1, 2, 3⟩,
    reason := some "completed", handoff := none }

/-- Result of `agentForced` processing `"hi"` against `[some respText]`. -/
def resultForced : ProcResult :=
  { input := "hi", output := some "hi", usage := ⟨1, 2, 3⟩,
    reason := some "handoff", handoff := some ⟨agentB, ""⟩ }

/-- Result of `agentPlain` processing `"go"` against
`[some respToolThenHandoff]`. -/
def resultHandoff : ProcResult :=
  { input := "go", output := none, usage := ⟨0, 0, 0⟩,
    reason := some "handoff", handoff := some ⟨agentB, "doX"⟩ }

/-- Result of `agentMulti` processing `"go"` against two tool-call responses
under `max_iterations = 2`. -/
def resultLimit : ProcResult :=
  { input := "go", output := some "working", usage := ⟨0, 0, 0⟩,
    reason := some "round_limit", handoff := none }

/-! ### Structural lemmas about the tool-call iteration -/

/-- The tool-call iteration never touches the shared context, the recorded
rounds, the round counter or the running totals. -/
theorem processToolCalls_frame (env : Env) (a : AgentCfg) (rc : Option String) :
    ∀ (tcs : List ToolCall) (st : LoopSt) (wd : Bool) (acc : List ToolCallRecord),
      (processToolCalls env a rc tcs st wd acc).st.ctx = st.ctx ∧
      (processToolCalls env a rc tcs st wd acc).st.rounds = st.rounds ∧
      (processToolCalls env a rc tcs st wd acc).st.round_number = st.round_number ∧
      (processToolCalls env a rc tcs st wd acc).st.totals = st.totals ∧
      (processToolCalls env a rc tcs st wd acc).st.current.input = st.current.input ∧
      (processToolCalls env a rc tcs st wd acc).st.current.output = st.current.output ∧
      (processToolCalls env a rc tcs st wd acc).st.current.token_usage = st.current.token_usage ∧
      (processToolCalls env a rc tcs st wd acc).st.current.tool_calls = st.current.tool_calls ∧
      (processToolCalls env a rc tcs st wd acc).st.final_output = st.final_output
  | [], st, wd, acc => by simp [processToolCalls]
  | tc :: rest, st, wd, acc => by
    simp only [processToolCalls]
    split
    · split
      · simp
      · split
        · simp
        · simpa using processToolCalls_frame env a rc rest _ wd acc
    · split
      · simpa using processToolCalls_frame env a rc rest _ true acc
      · split
        · simp
        · simpa using processToolCalls_frame env a rc rest _ wd _

/-- The tool-call iteration either leaves the chosen hand-off target unchanged
or sets it to a member of the agent's configured `handoffs` list. -/
theorem processToolCalls_handoff_mem (env : Env) (a : AgentCfg) (rc : Option String) :
    ∀ (tcs : List ToolCall) (st : LoopSt) (wd : Bool) (acc : List ToolCallRecord),
      (processToolCalls env a rc tcs st wd acc).st.handoff_target = st.handoff_target ∨
      ∃ ag ∈ a.handoffs, (processToolCalls env a rc tcs st wd acc).st.handoff_target = some ag
  | [], st, wd, acc => by simp [processToolCalls]
  | tc :: rest, st, wd, acc => by
    simp only [processToolCalls]
    split
    · split
      · simp
      · split
        · next ag hf =>
          exact Or.inr ⟨ag, List.mem_of_find?_eq_some hf, rfl⟩
        · simpa using processToolCalls_handoff_mem env a rc rest _ wd acc
    · split
      · simpa using processToolCalls_handoff_mem env a rc rest _ true acc
      · split
        · simp
        · simpa using processToolCalls_handoff_mem env a rc rest _ wd _

/-- How the tool-call iteration leaves the round's `reason` and the running
`final_reason`: a hand-off sets both to `handoff`; otherwise a `work_done`
call sets both to `work_done`; otherwise both are untouched (and the
`work_done` flag keeps its incoming value). -/
theorem processToolCalls_reason (env : Env) (a : AgentCfg) (rc : Option String) :
    ∀ (tcs : List ToolCall) (st : LoopSt) (wd : Bool) (acc : List ToolCallRecord),
      (processToolCalls env a rc tcs st wd acc).err = none →
      ((processToolCalls env a rc tcs st wd acc).handoffReq = true ∧
        (processToolCalls env a rc tcs st wd acc).st.current.reason = some "handoff" ∧
        (processToolCalls env a rc tcs st wd acc).st.final_reason = some "handoff") ∨
      ((processToolCalls env a rc tcs st wd acc).handoffReq = false ∧
        (processToolCalls env a rc tcs st wd acc).workDone = true ∧
        (processToolCalls env a rc tcs st wd acc).st.current.reason = some "work_done" ∧
        (processToolCalls env a rc tcs st wd acc).st.final_reason = some "work_done") ∨
      ((processToolCalls env a rc tcs st wd acc).handoffReq = false ∧
        (processToolCalls env a rc tcs st wd acc).workDone = wd ∧
        (processToolCalls env a rc tcs st wd acc).st.current.reason = st.current.reason ∧
        (processToolCalls env a rc tcs st wd acc).st.final_reason = st.final_reason)
  | [], st, wd, acc => by simp [processToolCalls]
  | tc :: rest, st, wd, acc => by
    simp only [processToolCalls]
    split
    · split
      · simp
      · split
        · simp
        · intro h
          simpa using processToolCalls_reason env a rc rest _ wd acc h
    · split
      · intro h
        rcases processToolCalls_reason env a rc rest _ true acc h with h1 | h1 | h1 <;>
          simp_all
      · rcases hjl : env.jsonLoads tc.function.arguments with _ | args
        · simp
        · intro h
          simpa using processToolCalls_reason env a rc rest _ wd _ h

/-- Processing a concatenation: the suffix runs only when the prefix finished
without an exception and without a hand-off request (a hand-off or an
exception short-circuits the iteration). -/
theorem processToolCalls_append (env : Env) (a : AgentCfg) (rc : Option String) :
    ∀ (xs ys : List ToolCall) (st : LoopSt) (wd : Bool) (acc : List ToolCallRecord),
      processToolCalls env a rc (xs ++ ys) st wd acc =
        (fun o =>
          if o.err = none ∧ o.handoffReq = false then
            processToolCalls env a rc ys o.st o.workDone o.acc
          else o)
        (processToolCalls env a rc xs st wd acc)
  | [], ys, st, wd, acc => by simp [processToolCalls]
  | x :: xs, ys, st, wd, acc => by
    simp only [List.cons_append, processToolCalls]
    split
    · split
      · simp
      · split
        · simp
        · simpa using processToolCalls_append env a rc xs ys _ wd acc
    · split
      · simpa using processToolCalls_append env a rc xs ys _ true acc
      · split
        · simp
        · simpa using processToolCalls_append env a rc xs ys _ wd _

/-! ### Structural lemmas about one loop iteration -/

theorem setLastReason_concat (xs : List Round) (x : Round) (s : String) :
    setLastReason (xs ++ [x]) s = xs ++ [{ x with reason := some s }] := by
  simp [setLastReason]

theorem setLastHandoff_concat (xs : List Round) (x : Round) (n : String) :
    setLastHandoff (xs ++ [x]) n = xs ++ [{ x with handoff := some n }] := by
  simp [setLastHandoff]

/-- What `accountRound` does and does not touch. -/
theorem accountRound_frame (a : AgentCfg) (resp : Response) (rn : Nat) (st : LoopSt) :
    (accountRound a resp rn st).rounds = st.rounds ∧
    (accountRound a resp rn st).round_number = rn ∧
    (accountRound a resp rn st).messages = st.messages ∧
    (accountRound a resp rn st).memory = st.memory ∧
    (accountRound a resp rn st).handoff_target = st.handoff_target ∧
    (accountRound a resp rn st).handoff_instructions = st.handoff_instructions ∧
    (accountRound a resp rn st).final_reason = st.final_reason ∧
    (accountRound a resp rn st).current.reason = st.current.reason ∧
    (accountRound a resp rn st).current.tool_calls = st.current.tool_calls ∧
    (accountRound a resp rn st).current.input = st.current.input ∧
    (accountRound a resp rn st).last_tool_result = st.last_tool_result ∧
    (st.current.token_usage = none →
      (accountRound a resp rn st).current.token_usage = resp.usage) := by
  cases h : resp.usage <;> simp [accountRound, h]

/-- Token-accounting effect of `accountRound` on the shared context. -/
theorem accountRound_ctx (a : AgentCfg) (resp : Response) (rn : Nat) (st : LoopSt) :
    (accountRound a resp rn st).ctx.token_usage.prompt_tokens =
      st.ctx.token_usage.prompt_tokens + ((resp.usage.map Usage.prompt_tokens).getD 0) ∧
    (accountRound a resp rn st).ctx.token_usage.completion_tokens =
      st.ctx.token_usage.completion_tokens + ((resp.usage.map Usage.completion_tokens).getD 0) ∧
    (accountRound a resp rn st).ctx.token_usage.total_tokens =
      st.ctx.token_usage.total_tokens + ((resp.usage.map Usage.prompt_tokens).getD 0)
        + ((resp.usage.map Usage.completion_tokens).getD 0) := by
  cases h : resp.usage <;>
    simp [accountRound, h, ContextInst.update_token_usage, TokenUsage.update]

/-- Frame of `recordRound`: appends one round whose token usage (and reason)
are those of the working round; everything else unchanged. -/
theorem recordRound_frame (o : TCOut) :
    (recordRound o).ctx = o.st.ctx ∧
    (recordRound o).handoff_target = o.st.handoff_target ∧
    (recordRound o).handoff_instructions = o.st.handoff_instructions ∧
    (recordRound o).round_number = o.st.round_number ∧
    (recordRound o).totals = o.st.totals ∧
    (recordRound o).final_output = o.st.final_output ∧
    (recordRound o).final_reason = o.st.final_reason ∧
    (recordRound o).current.reason = o.st.current.reason ∧
    (recordRound o).current.token_usage = o.st.current.token_usage ∧
    (recordRound o).last_tool_result = o.st.last_tool_result ∧
    ∃ rd : Round, (recordRound o).rounds = o.st.rounds ++ [rd] ∧
      rd.token_usage = o.st.current.token_usage ∧ rd.reason = o.st.current.reason ∧
      (recordRound o).current = rd := by
  unfold recordRound
  split <;> simp

/-- Frame of `limitRound`. -/
theorem limitRound_frame (maxIter : Option Nat) (rn : Nat) (st : LoopSt) :
    (limitRound maxIter rn st).ctx = st.ctx ∧
    (limitRound maxIter rn st).handoff_target = st.handoff_target ∧
    (limitRound maxIter rn st).handoff_instructions = st.handoff_instructions ∧
    (limitRound maxIter rn st).round_number = st.round_number ∧
    (limitRound maxIter rn st).totals = st.totals ∧
    (limitRound maxIter rn st).final_output = st.final_output ∧
    (limitRound maxIter rn st).current.token_usage = st.current.token_usage ∧
    (limitRound maxIter rn st).last_tool_result = st.last_tool_result := by
  unfold limitRound
  split <;> simp

/-- Frame of `completeRound`. -/
theorem completeRound_frame (st : LoopSt) :
    (completeRound st).ctx = st.ctx ∧
    (completeRound st).handoff_target = st.handoff_target ∧
    (completeRound st).handoff_instructions = st.handoff_instructions ∧
    (completeRound st).round_number = st.round_number ∧
    (completeRound st).totals = st.totals ∧
    (completeRound st).final_output = st.final_output ∧
    (completeRound st).current.token_usage = st.current.token_usage ∧
    (completeRound st).last_tool_result = st.last_tool_result := by
  unfold completeRound
  split <;> simp

/-- `finishRound` never raises. -/
theorem finishRound_err (env : Env) (a : AgentCfg) (maxIter : Option Nat) (rn : Nat)
    (o : TCOut) : (finishRound env a maxIter rn o).1 = none := by
  unfold finishRound
  split <;> simp

/-- The `Bool` returned by `finishRound` is exactly the `while`-break
condition of agent.py lines 429-435. -/
theorem finishRound_brk (env : Env) (a : AgentCfg) (maxIter : Option Nat) (rn : Nat)
    (o : TCOut) :
    (finishRound env a maxIter rn o).2.2 = brkCond a maxIter rn o := by
  unfold finishRound
  split <;> simp_all

/-- The round appended by `limitRound ∘ recordRound`: its token usage is that
of the working round. -/
theorem limitRecord_rounds (maxIter : Option Nat) (rn : Nat) (o : TCOut) :
    ∃ rd : Round, (limitRound maxIter rn (recordRound o)).rounds = o.st.rounds ++ [rd] ∧
      rd.token_usage = o.st.current.token_usage := by
  obtain ⟨-, -, -, -, -, -, -, -, hcu, -, rd, hr, hru, -, -⟩ := recordRound_frame o
  unfold limitRound
  split
  · exact ⟨{ rd with reason := some "round_limit" }, by
      simp [hr, setLastReason_concat], by simp [hru]⟩
  · exact ⟨rd, hr, hru⟩

/-- `completeRound` can only restamp the last recorded round's reason. -/
theorem completeRound_rounds (st : LoopSt) (xs : List Round) (rd : Round)
    (h : st.rounds = xs ++ [rd]) :
    ∃ rd' : Round, (completeRound st).rounds = xs ++ [rd'] ∧
      rd'.token_usage = rd.token_usage := by
  unfold completeRound
  split
  · exact ⟨{ rd with reason := some "completed" }, by simp [h, setLastReason_concat], by simp⟩
  · exact ⟨rd, h, rfl⟩

/-- `finishRound` does not touch the context, the hand-off choice or the
counters, and appends exactly one round record carrying the working round's
token usage. -/
theorem finishRound_frame (env : Env) (a : AgentCfg) (maxIter : Option Nat) (rn : Nat)
    (o : TCOut) :
    (finishRound env a maxIter rn o).2.1.ctx = o.st.ctx ∧
    (finishRound env a maxIter rn o).2.1.handoff_target = o.st.handoff_target ∧
    (finishRound env a maxIter rn o).2.1.handoff_instructions = o.st.handoff_instructions ∧
    (finishRound env a maxIter rn o).2.1.round_number = o.st.round_number ∧
    (finishRound env a maxIter rn o).2.1.totals = o.st.totals ∧
    (finishRound env a maxIter rn o).2.1.final_output = o.st.final_output ∧
    ∃ rd : Round, (finishRound env a maxIter rn o).2.1.rounds = o.st.rounds ++ [rd] ∧
      rd.token_usage = o.st.current.token_usage := by
  obtain ⟨h1, h2, h3, h4, h5, h6, -, -, hcu, -, rd0, -, -, -⟩ := recordRound_frame o
  obtain ⟨l1, l2, l3, l4, l5, l6, l7, -⟩ := limitRound_frame maxIter rn (recordRound o)
  obtain ⟨rd, hrd, hrdu⟩ := limitRecord_rounds maxIter rn o
  unfold finishRound
  split
  · obtain ⟨c1, c2, c3, c4, c5, c6, c7, -⟩ :=
      completeRound_frame (limitRound maxIter rn (recordRound o))
    obtain ⟨rd', hrd', hrdu'⟩ :=
      completeRound_rounds (limitRound maxIter rn (recordRound o)) _ _ hrd
    exact ⟨by simp [c1, l1, h1], by simp [c2, l2, h2], by simp [c3, l3, h3],
      by simp [c4, l4, h4], by simp [c5, l5, h5], by simp [c6, l6, h6],
      rd', by simpa using hrd', by simp [hrdu', hrdu]⟩
  · exact ⟨by simp [nextRound, l1, h1], by simp [nextRound, l2, h2],
      by simp [nextRound, l3, h3], by simp [nextRound, l4, h4],
      by simp [nextRound, l5, h5], by simp [nextRound, l6, h6],
      rd, by simp [nextRound, hrd], by simp [hrdu]⟩

/-- `processRound` unfolded to its three stages. -/
theorem processRound_eq (env : Env) (a : AgentCfg) (maxIter : Option Nat)
    (resp : Response) (st : LoopSt) :
    processRound env a maxIter resp st =
      match (processToolCalls env a resp.content resp.tool_calls
          (accountRound a resp (st.round_number + 1) st) false []).err with
      | some e => (some e,
          (processToolCalls env a resp.content resp.tool_calls
            (accountRound a resp (st.round_number + 1) st) false []).st, true)
      | none => finishRound env a maxIter (st.round_number + 1)
          (processToolCalls env a resp.content resp.tool_calls
            (accountRound a resp (st.round_number + 1) st) false []) := by
  unfold processRound
  rfl

/-- Decomposition of a false `while`-break condition. -/
theorem brkCond_false {a : AgentCfg} {maxIter : Option Nat} {rn : Nat} {o : TCOut}
    (h : brkCond a maxIter rn o = false) :
    o.acc.isEmpty = false ∧ o.handoffReq = false ∧ o.workDone = false ∧
    atMax maxIter rn = false ∧ a.multi_turn = true := by
  simp only [brkCond, Bool.or_eq_false_iff, Bool.not_eq_true'] at h
  exact ⟨h.1.1.1.1, h.1.1.1.2, h.1.1.2, h.1.2, by simpa using h.2⟩

/-- A `(… , true)` outcome of `finishRound` comes from the break branch. -/
theorem finishRound_true_eq {env : Env} {a : AgentCfg} {maxIter : Option Nat} {rn : Nat}
    {o : TCOut} {st' : LoopSt}
    (h : finishRound env a maxIter rn o = (none, st', true)) :
    st' = completeRound (limitRound maxIter rn (recordRound o)) ∧
    brkCond a maxIter rn o = true := by
  unfold finishRound at h
  split at h
  · next hb =>
    refine ⟨?_, hb⟩
    have h2 := congrArg (fun p => p.2.1) h
    exact h2.symm
  · simp at h

/-- A `(… , false)` outcome of `finishRound` comes from the continue branch. -/
theorem finishRound_false_eq {env : Env} {a : AgentCfg} {maxIter : Option Nat} {rn : Nat}
    {o : TCOut} {st' : LoopSt}
    (h : finishRound env a maxIter rn o = (none, st', false)) :
    st' = nextRound env (limitRound maxIter rn (recordRound o)) ∧
    brkCond a maxIter rn o = false := by
  unfold finishRound at h
  split at h
  · simp at h
  · next hb =>
    have h2 := congrArg (fun p => p.2.1) h
    exact ⟨h2.symm, Bool.of_not_eq_true hb⟩

/-- Explicit description of `limitRound`. -/
theorem limitRound_out (maxIter : Option Nat) (rn : Nat) (st : LoopSt) :
    limitRound maxIter rn st = st ∨
    (atMax maxIter rn = true ∧ st.current.reason = none ∧
      limitRound maxIter rn st =
        { st with
            current := { st.current with reason := some "round_limit" }
            final_reason := some "round_limit"
            rounds := setLastReason st.rounds "round_limit" }) := by
  unfold limitRound
  split
  · next hb =>
    simp only [Bool.and_eq_true, Option.isNone_iff_eq_none] at hb
    exact Or.inr ⟨hb.1, hb.2, rfl⟩
  · exact Or.inl rfl

/-- Explicit description of `completeRound`. -/
theorem completeRound_out (st : LoopSt) :
    (st.current.reason ≠ none ∧ completeRound st = st) ∨
    (st.current.reason = none ∧
      completeRound st =
        { st with
            current := { st.current with reason := some "completed" }
            final_reason := some "completed"
            rounds := setLastReason st.rounds "completed" }) := by
  unfold completeRound
  split
  · next hb => exact Or.inr ⟨Option.isNone_iff_eq_none.mp hb, rfl⟩
  · next hb => exact Or.inl ⟨by simpa using hb, rfl⟩

/-- An exception-free loop iteration: the round counter advances by one,
exactly one round is recorded (with this response's usage when the working
round was fresh), the context accumulates exactly this response's token
counts, and the hand-off target is preserved or chosen from `handoffs`. -/
theorem processRound_ok_frame {env : Env} {a : AgentCfg} {maxIter : Option Nat}
    {resp : Response} {st st' : LoopSt} {b : Bool}
    (h : processRound env a maxIter resp st = (none, st', b)) :
    st'.round_number = st.round_number + 1 ∧
    (∃ rd : Round, st'.rounds = st.rounds ++ [rd] ∧
      (st.current.token_usage = none → rd.token_usage = resp.usage)) ∧
    st'.ctx.token_usage.prompt_tokens =
      st.ctx.token_usage.prompt_tokens + ((resp.usage.map Usage.prompt_tokens).getD 0) ∧
    st'.ctx.token_usage.completion_tokens =
      st.ctx.token_usage.completion_tokens + ((resp.usage.map Usage.completion_tokens).getD 0) ∧
    st'.ctx.token_usage.total_tokens =
      st.ctx.token_usage.total_tokens + ((resp.usage.map Usage.prompt_tokens).getD 0)
        + ((resp.usage.map Usage.completion_tokens).getD 0) ∧
    (st'.handoff_target = st.handoff_target ∨ ∃ ag ∈ a.handoffs, st'.handoff_target = some ag) := by
  rw [processRound_eq] at h
  rcases hoe : (processToolCalls env a resp.content resp.tool_calls
      (accountRound a resp (st.round_number + 1) st) false []).err with _ | e
  swap
  · simp [hoe] at h
  simp only [hoe] at h
  obtain ⟨a1, a2, -, -, a5, -, -, -, -, -, -, a12⟩ :=
    accountRound_frame a resp (st.round_number + 1) st
  obtain ⟨t1, t2, t3, -, -, -, t7, -, -⟩ :=
    processToolCalls_frame env a resp.content resp.tool_calls
      (accountRound a resp (st.round_number + 1) st) false []
  obtain ⟨f1, f2, -, f4, -, -, rd, frd, frdu⟩ :=
    finishRound_frame env a maxIter (st.round_number + 1)
      (processToolCalls env a resp.content resp.tool_calls
        (accountRound a resp (st.round_number + 1) st) false [])
  obtain ⟨c1, c2, c3⟩ := accountRound_ctx a resp (st.round_number + 1) st
  have hst : (finishRound env a maxIter (st.round_number + 1)
      (processToolCalls env a resp.content resp.tool_calls
        (accountRound a resp (st.round_number + 1) st) false [])).2.1 = st' := by
    rw [h]
  rw [hst] at f1 f2 f4 frd
  refine ⟨by rw [f4, t3, a2], ⟨rd, by rw [frd, t2, a1], ?_⟩, ?_, ?_, ?_, ?_⟩
  · intro hnone
    rw [frdu, t7, a12 hnone]
  · rw [f1, t1, c1]
  · rw [f1, t1, c2]
  · rw [f1, t1, c3]
  · rcases processToolCalls_handoff_mem env a resp.content resp.tool_calls
        (accountRound a resp (st.round_number + 1) st) false [] with hh | ⟨ag, hag, hh⟩
    · exact Or.inl (by rw [f2, hh, a5])
    · exact Or.inr ⟨ag, hag, by rw [f2, hh]⟩

/-- Even an iteration that raises only ever adds to the context's token
accumulator (the failed round's usage is recorded before the exception and is
not rolled back). -/
theorem processRound_ctx_mono {env : Env} {a : AgentCfg} {maxIter : Option Nat}
    {resp : Response} {st st' : LoopSt} {e : Option AgentError} {b : Bool}
    (h : processRound env a maxIter resp st = (e, st', b)) :
    st.ctx.token_usage.prompt_tokens ≤ st'.ctx.token_usage.prompt_tokens ∧
    st.ctx.token_usage.completion_tokens ≤ st'.ctx.token_usage.completion_tokens ∧
    st.ctx.token_usage.total_tokens ≤ st'.ctx.token_usage.total_tokens := by
  rw [processRound_eq] at h
  obtain ⟨c1, c2, c3⟩ := accountRound_ctx a resp (st.round_number + 1) st
  obtain ⟨t1, -⟩ :=
    processToolCalls_frame env a resp.content resp.tool_calls
      (accountRound a resp (st.round_number + 1) st) false []
  rcases hoe : (processToolCalls env a resp.content resp.tool_calls
      (accountRound a resp (st.round_number + 1) st) false []).err with _ | e'
  · simp only [hoe] at h
    obtain ⟨f1, -⟩ :=
      finishRound_frame env a maxIter (st.round_number + 1)
        (processToolCalls env a resp.content resp.tool_calls
          (accountRound a resp (st.round_number + 1) st) false [])
    have hst : (finishRound env a maxIter (st.round_number + 1)
        (processToolCalls env a resp.content resp.tool_calls
          (accountRound a resp (st.round_number + 1) st) false [])).2.1 = st' := by
      rw [h]
    rw [hst] at f1
    refine ⟨?_, ?_, ?_⟩
    · rw [f1, t1, c1]; omega
    · rw [f1, t1, c2]; omega
    · rw [f1, t1, c3]; omega
  · simp only [hoe] at h
    have hst : (processToolCalls env a resp.content resp.tool_calls
        (accountRound a resp (st.round_number + 1) st) false []).st = st' := by
      have := congrArg (fun p : Option AgentError × LoopSt × Bool => p.2.1) h
      simpa using this
    rw [hst] at t1
    constructor
    · rw [t1, c1]; omega
    constructor
    · rw [t1, c2]; omega
    · rw [t1, c3]; omega

/-- The break-path pipeline `completeRound ∘ limitRound ∘ recordRound`: the
last recorded round equals the working round, and the reason stamping follows
the source's priority — an already-set reason survives; otherwise the round
limit stamps `round_limit`; otherwise `completed`. -/
theorem brkPipeline (maxIter : Option Nat) (rn : Nat) (o : TCOut) :
    (completeRound (limitRound maxIter rn (recordRound o))).rounds =
      o.st.rounds ++ [(completeRound (limitRound maxIter rn (recordRound o))).current] ∧
    ((o.st.current.reason = none ∧ atMax maxIter rn = true ∧
        (completeRound (limitRound maxIter rn (recordRound o))).current.reason =
          some "round_limit" ∧
        (completeRound (limitRound maxIter rn (recordRound o))).final_reason =
          some "round_limit") ∨
     (o.st.current.reason = none ∧ atMax maxIter rn = false ∧
        (completeRound (limitRound maxIter rn (recordRound o))).current.reason =
          some "completed" ∧
        (completeRound (limitRound maxIter rn (recordRound o))).final_reason =
          some "completed") ∨
     (o.st.current.reason ≠ none ∧
        (completeRound (limitRound maxIter rn (recordRound o))).current.reason =
          o.st.current.reason ∧
        (completeRound (limitRound maxIter rn (recordRound o))).final_reason =
          o.st.final_reason)) := by
  by_cases hacc : o.acc.isEmpty <;>
    by_cases hr : o.st.current.reason = none <;>
    by_cases hmax : atMax maxIter rn <;>
    simp_all [recordRound, limitRound, completeRound, setLastReason_concat]

/-- An exception-free continuing iteration: the working round is fresh again,
the final reason is untouched, the appended round has no reason, and neither
the round limit nor single-turn mode stopped the loop. -/
theorem processRound_continue {env : Env} {a : AgentCfg} {maxIter : Option Nat}
    {resp : Response} {st st' : LoopSt}
    (h : processRound env a maxIter resp st = (none, st', false))
    (hfresh : st.current.reason = none) :
    st'.current.reason = none ∧ st'.current.token_usage = none ∧
    st'.final_reason = st.final_reason ∧
    (∃ rd : Round, st'.rounds = st.rounds ++ [rd] ∧ rd.reason = none) ∧
    atMax maxIter (st.round_number + 1) = false ∧ a.multi_turn = true := by
  rw [processRound_eq] at h
  set o := processToolCalls env a resp.content resp.tool_calls
    (accountRound a resp (st.round_number + 1) st) false [] with hodef
  rcases hoe : o.err with _ | e
  swap
  · simp [hoe] at h
  simp only [hoe] at h
  obtain ⟨hst, hbrk⟩ := finishRound_false_eq h
  obtain ⟨-, hhr, hwd, hmax, hmt⟩ := brkCond_false hbrk
  obtain ⟨aRounds, -, -, -, -, -, aFinal, aReason, -, -, -, -⟩ :=
    accountRound_frame a resp (st.round_number + 1) st
  obtain ⟨-, t2, -⟩ :=
    processToolCalls_frame env a resp.content resp.tool_calls
      (accountRound a resp (st.round_number + 1) st) false []
  rcases processToolCalls_reason env a resp.content resp.tool_calls
      (accountRound a resp (st.round_number + 1) st) false [] (hodef ▸ hoe)
    with hcase | hcase | hcase
  · exact absurd (hodef ▸ hcase.1) (by simp [hhr])
  · exact absurd (hodef ▸ hcase.2.1) (by simp [hwd])
  obtain ⟨-, -, hcReason, hcFinal⟩ := hcase
  have hor : o.st.current.reason = none := by
    rw [hodef, hcReason, aReason, hfresh]
  have hofinal : o.st.final_reason = st.final_reason := by
    rw [hodef, hcFinal, aFinal]
  have hlim : limitRound maxIter (st.round_number + 1) (recordRound o) = recordRound o := by
    rcases limitRound_out maxIter (st.round_number + 1) (recordRound o) with hid | ⟨hm, -, -⟩
    · exact hid
    · exact absurd hm (by simp [hmax])
  obtain ⟨-, -, -, -, -, -, rFinal, -, -, -, rd, rRounds, -, rdReason, -⟩ :=
    recordRound_frame o
  rw [hst, hlim]
  have hoRounds : o.st.rounds = st.rounds := by rw [hodef]; rw [t2, aRounds]
  refine ⟨by simp [nextRound, freshRound], by simp [nextRound, freshRound],
    ?_, ⟨rd, ?_, ?_⟩, hmax, hmt⟩
  · show (recordRound o).final_reason = st.final_reason
    rw [rFinal, hofinal]
  · show (recordRound o).rounds = st.rounds ++ [rd]
    rw [rRounds, hoRounds]
  · rw [rdReason, hor]

/-- An exception-free breaking iteration: the recorded rounds gain exactly the
working round, the final reason and the last round's reason agree, a reason is
always stamped, and when the round limit was hit the stamped reason is
`handoff`, `work_done` or `round_limit` (never `completed`). -/
theorem processRound_brk {env : Env} {a : AgentCfg} {maxIter : Option Nat}
    {resp : Response} {st st' : LoopSt}
    (h : processRound env a maxIter resp st = (none, st', true))
    (hfresh : st.current.reason = none) :
    st'.rounds = st.rounds ++ [st'.current] ∧
    st'.final_reason = st'.current.reason ∧
    st'.current.reason ≠ none ∧
    (atMax maxIter (st.round_number + 1) = true →
      st'.current.reason = some "handoff" ∨ st'.current.reason = some "work_done" ∨
      st'.current.reason = some "round_limit") := by
  rw [processRound_eq] at h
  rcases hoe : (processToolCalls env a resp.content resp.tool_calls
      (accountRound a resp (st.round_number + 1) st) false []).err with _ | e
  swap
  · simp [hoe] at h
  simp only [hoe] at h
  obtain ⟨hst, -⟩ := finishRound_true_eq h
  obtain ⟨aRounds, -, -, -, -, -, aFinal, aReason, -, -, -, -⟩ :=
    accountRound_frame a resp (st.round_number + 1) st
  obtain ⟨-, t2, -⟩ :=
    processToolCalls_frame env a resp.content resp.tool_calls
      (accountRound a resp (st.round_number + 1) st) false []
  obtain ⟨pR, pCase⟩ := brkPipeline maxIter (st.round_number + 1)
    (processToolCalls env a resp.content resp.tool_calls
      (accountRound a resp (st.round_number + 1) st) false [])
  rw [hst]
  refine ⟨by rw [pR, t2, aRounds], ?_⟩
  rcases processToolCalls_reason env a resp.content resp.tool_calls
      (accountRound a resp (st.round_number + 1) st) false [] hoe
    with hcase | hcase | hcase
  · -- hand-off requested this round
    obtain ⟨-, hcr, hcf⟩ := hcase
    rcases pCase with ⟨pn, -⟩ | ⟨pn, -⟩ | ⟨-, pr, pf⟩
    · rw [hcr] at pn; exact absurd pn (by simp)
    · rw [hcr] at pn; exact absurd pn (by simp)
    · exact ⟨by rw [pf, hcf, pr, hcr], by rw [pr, hcr]; simp,
        fun _ => Or.inl (by rw [pr, hcr])⟩
  · -- work-done signalled this round
    obtain ⟨-, -, hcr, hcf⟩ := hcase
    rcases pCase with ⟨pn, -⟩ | ⟨pn, -⟩ | ⟨-, pr, pf⟩
    · rw [hcr] at pn; exact absurd pn (by simp)
    · rw [hcr] at pn; exact absurd pn (by simp)
    · exact ⟨by rw [pf, hcf, pr, hcr], by rw [pr, hcr]; simp,
        fun _ => Or.inr (Or.inl (by rw [pr, hcr]))⟩
  · -- no hand-off and no work-done: reason was still unset
    obtain ⟨-, -, hcr, -⟩ := hcase
    have hon : (processToolCalls env a resp.content resp.tool_calls
        (accountRound a resp (st.round_number + 1) st) false []).st.current.reason = none := by
      rw [hcr, aReason, hfresh]
    rcases pCase with ⟨-, pm, pr, pf⟩ | ⟨-, pm, pr, pf⟩ | ⟨pn, -⟩
    · exact ⟨by rw [pf, pr], by simp [pr], fun _ => Or.inr (Or.inr pr)⟩
    · exact ⟨by rw [pf, pr], by simp [pr], fun hm => absurd pm (by simp [hm])⟩
    · exact absurd hon pn

/-- Any loop iteration — also one that raises — leaves the hand-off target
unchanged or picks it from `handoffs`. -/
theorem processRound_handoff_any {env : Env} {a : AgentCfg} {maxIter : Option Nat}
    {resp : Response} {st st' : LoopSt} {e : Option AgentError} {b : Bool}
    (h : processRound env a maxIter resp st = (e, st', b)) :
    st'.handoff_target = st.handoff_target ∨
    ∃ ag ∈ a.handoffs, st'.handoff_target = some ag := by
  rw [processRound_eq] at h
  obtain ⟨-, -, -, -, a5, -⟩ := accountRound_frame a resp (st.round_number + 1) st
  rcases hoe : (processToolCalls env a resp.content resp.tool_calls
      (accountRound a resp (st.round_number + 1) st) false []).err with _ | e'
  · simp only [hoe] at h
    have hst : (finishRound env a maxIter (st.round_number + 1)
        (processToolCalls env a resp.content resp.tool_calls
          (accountRound a resp (st.round_number + 1) st) false [])).2.1 = st' := by
      rw [h]
    obtain ⟨-, f2, -⟩ :=
      finishRound_frame env a maxIter (st.round_number + 1)
        (processToolCalls env a resp.content resp.tool_calls
          (accountRound a resp (st.round_number + 1) st) false [])
    rw [hst] at f2
    rcases processToolCalls_handoff_mem env a resp.content resp.tool_calls
        (accountRound a resp (st.round_number + 1) st) false [] with hh | ⟨ag, hag, hh⟩
    · exact Or.inl (by rw [f2, hh, a5])
    · exact Or.inr ⟨ag, hag, by rw [f2, hh]⟩
  · simp only [hoe] at h
    have hst : (processToolCalls env a resp.content resp.tool_calls
        (accountRound a resp (st.round_number + 1) st) false []).st = st' := by
      have := congrArg (fun p : Option AgentError × LoopSt × Bool => p.2.1) h
      simpa using this
    rcases processToolCalls_handoff_mem env a resp.content resp.tool_calls
        (accountRound a resp (st.round_number + 1) st) false [] with hh | ⟨ag, hag, hh⟩
    · exact Or.inl (by rw [← hst, hh, a5])
    · exact Or.inr ⟨ag, hag, by rw [← hst, hh]⟩

/-- A continuing iteration always leaves a fresh working round. -/
theorem processRound_continue_cur {env : Env} {a : AgentCfg} {maxIter : Option Nat}
    {resp : Response} {st st' : LoopSt}
    (h : processRound env a maxIter resp st = (none, st', false)) :
    st'.current.reason = none ∧ st'.current.token_usage = none := by
  rw [processRound_eq] at h
  rcases hoe : (processToolCalls env a resp.content resp.tool_calls
      (accountRound a resp (st.round_number + 1) st) false []).err with _ | e
  swap
  · simp [hoe] at h
  simp only [hoe] at h
  obtain ⟨hst, -⟩ := finishRound_false_eq h
  rw [hst]
  simp [nextRound, freshRound]

/-! ### Loop-level invariants -/

/-- Across the whole conversation loop the hand-off target is `none` or a
member of `handoffs` (given that it starts that way). -/
theorem runLoop_handoff (env : Env) (a : AgentCfg) (maxIter : Option Nat) :
    ∀ (script : List ClientStep) (st : LoopSt),
      (runLoop env a maxIter script st).st.handoff_target = st.handoff_target ∨
      ∃ ag ∈ a.handoffs, (runLoop env a maxIter script st).st.handoff_target = some ag
  | [], st => by
    rw [runLoop]
    split <;> simp
  | none :: rest, st => by
    rw [runLoop]
    split <;> simp
  | some resp :: rest, st => by
    rw [runLoop]
    split
    · rcases hpr : processRound env a maxIter resp st with ⟨e, st2, b⟩
      have hmem := processRound_handoff_any hpr
      match e, b with
      | some e', _ => simpa [hpr] using hmem
      | none, true => simpa [hpr] using hmem
      | none, false =>
        simp only [hpr]
        rcases runLoop_handoff env a maxIter rest st2 with hh | ⟨ag, hag, hh⟩
        · rcases hmem with hm | ⟨ag, hag, hm⟩
          · exact Or.inl (hh.trans hm)
          · exact Or.inr ⟨ag, hag, hh.trans hm⟩
        · exact Or.inr ⟨ag, hag, hh⟩
    · simp

theorem roundPromptSum_nil : roundPromptSum [] = 0 := rfl

theorem roundCompletionSum_nil : roundCompletionSum [] = 0 := rfl

theorem roundTotalSum_nil : roundTotalSum [] = 0 := rfl

theorem roundPromptSum_cons (r : Round) (rs : List Round) :
    roundPromptSum (r :: rs) =
      ((r.token_usage.map Usage.prompt_tokens).getD 0) + roundPromptSum rs := by
  simp [roundPromptSum]

theorem roundCompletionSum_cons (r : Round) (rs : List Round) :
    roundCompletionSum (r :: rs) =
      ((r.token_usage.map Usage.completion_tokens).getD 0) + roundCompletionSum rs := by
  simp [roundCompletionSum]

theorem roundTotalSum_cons (r : Round) (rs : List Round) :
    roundTotalSum (r :: rs) =
      ((r.token_usage.map Usage.total_tokens).getD 0) + roundTotalSum rs := by
  simp [roundTotalSum]

theorem wfScript_tail {x : ClientStep} {rest : List ClientStep}
    (h : WfScript (x :: rest)) : WfScript rest :=
  fun step hs => h step (List.mem_cons_of_mem _ hs)

theorem wfScript_head {resp : Response} {rest : List ClientStep}
    (h : WfScript (some resp :: rest)) :
    ∀ u, resp.usage = some u → u.total_tokens = u.prompt_tokens + u.completion_tokens := by
  intro u hu
  have hs := h (some resp) (List.mem_cons_self _ _)
  simp only [wfStep, hu, beq_iff_eq] at hs
  exact hs

/-- Total-token bookkeeping of one recorded response under the provider
invariant. -/
theorem usage_total_split {resp : Response}
    (hwf : ∀ u, resp.usage = some u →
      u.total_tokens = u.prompt_tokens + u.completion_tokens) :
    ((resp.usage.map Usage.total_tokens).getD 0) =
      ((resp.usage.map Usage.prompt_tokens).getD 0)
        + ((resp.usage.map Usage.completion_tokens).getD 0) := by
  cases hu : resp.usage with
  | none => simp
  | some u => simpa using hwf u hu

/-- Across an exception-free run of the conversation loop, the context's
token accumulator grows by exactly the sums recorded in the appended rounds
(prompt and completion unconditionally; totals under the provider invariant
`total = prompt + completion` on the script). -/
theorem runLoop_token (env : Env) (a : AgentCfg) (maxIter : Option Nat) :
    ∀ (script : List ClientStep) (st : LoopSt),
      WfScript script →
      st.current.token_usage = none →
      (runLoop env a maxIter script st).err = none →
      ∃ new : List Round,
        (runLoop env a maxIter script st).st.rounds = st.rounds ++ new ∧
        (runLoop env a maxIter script st).st.ctx.token_usage.prompt_tokens =
          st.ctx.token_usage.prompt_tokens + roundPromptSum new ∧
        (runLoop env a maxIter script st).st.ctx.token_usage.completion_tokens =
          st.ctx.token_usage.completion_tokens + roundCompletionSum new ∧
        (runLoop env a maxIter script st).st.ctx.token_usage.total_tokens =
          st.ctx.token_usage.total_tokens + roundTotalSum new
  | [], st => by
    intro hwf hcur herr
    by_cases hc : loopCond maxIter st.round_number = true
    · rw [runLoop] at herr
      simp [hc] at herr
    · rw [runLoop] at herr ⊢
      rw [if_neg hc] at herr ⊢
      exact ⟨[], by simp, by simp [roundPromptSum_nil], by simp [roundCompletionSum_nil],
        by simp [roundTotalSum_nil]⟩
  | none :: rest, st => by
    intro hwf hcur herr
    by_cases hc : loopCond maxIter st.round_number = true
    · rw [runLoop] at herr
      simp [hc] at herr
    · rw [runLoop] at herr ⊢
      rw [if_neg hc] at herr ⊢
      exact ⟨[], by simp, by simp [roundPromptSum_nil], by simp [roundCompletionSum_nil],
        by simp [roundTotalSum_nil]⟩
  | some resp :: rest, st => by
    intro hwf hcur herr
    by_cases hc : loopCond maxIter st.round_number = true
    swap
    · rw [runLoop] at herr ⊢
      rw [if_neg hc] at herr ⊢
      exact ⟨[], by simp, by simp [roundPromptSum_nil], by simp [roundCompletionSum_nil],
        by simp [roundTotalSum_nil]⟩
    rw [runLoop] at herr ⊢
    rw [if_pos hc] at herr ⊢
    rcases hpr : processRound env a maxIter resp st with ⟨e, st2, b⟩
    simp only [hpr] at herr ⊢
    match e, b with
    | some e', _ => simp at herr
    | none, true =>
      obtain ⟨-, ⟨rd, hrounds, hrdu⟩, hcp, hcc, hct, -⟩ := processRound_ok_frame hpr
      have hrdu' := hrdu hcur
      refine ⟨[rd], by simpa using hrounds, ?_, ?_, ?_⟩
      · simpa [roundPromptSum_cons, roundPromptSum_nil, hrdu'] using hcp
      · simpa [roundCompletionSum_cons, roundCompletionSum_nil, hrdu'] using hcc
      · have hsplit := usage_total_split (wfScript_head hwf)
        simp only [roundTotalSum_cons, roundTotalSum_nil, hrdu', Nat.add_zero]
        rw [hsplit]
        simpa [Nat.add_assoc] using hct
    | none, false =>
      obtain ⟨-, ⟨rd, hrounds, hrdu⟩, hcp, hcc, hct, -⟩ := processRound_ok_frame hpr
      have hrdu' := hrdu hcur
      obtain ⟨-, hcur2⟩ := processRound_continue_cur hpr
      obtain ⟨new2, ihr, ihp, ihc, iht⟩ :=
        runLoop_token env a maxIter rest st2 (wfScript_tail hwf) hcur2 herr
      refine ⟨rd :: new2, ?_, ?_, ?_, ?_⟩
      · rw [ihr, hrounds]
        simp
      · rw [ihp, hcp, roundPromptSum_cons, hrdu']
        omega
      · rw [ihc, hcc, roundCompletionSum_cons, hrdu']
        omega
      · have hsplit := usage_total_split (wfScript_head hwf)
        rw [iht, hct, roundTotalSum_cons, hrdu', hsplit]
        omega

theorem lastRoundReason_concat (xs : List Round) (x : Round) :
    lastRoundReason (xs ++ [x]) = x.reason := by
  simp [lastRoundReason]

theorem lastRoundReason_of_all_none {rs : List Round}
    (h : ∀ r ∈ rs, r.reason = none) : lastRoundReason rs = none := by
  unfold lastRoundReason
  cases hg : rs.getLast? with
  | none => rfl
  | some r =>
    exact h r (by
      obtain ⟨hne, hx⟩ := List.mem_getLast?_eq_getLast (Option.mem_def.mpr hg)
      exact hx ▸ List.getLast_mem hne)

/-- Across an exception-free run of the conversation loop started on a fresh
attempt state, the final reason equals the reason recorded on the last round
(and the rounds before the final one carry no reason). -/
theorem runLoop_sync (env : Env) (a : AgentCfg) (maxIter : Option Nat) :
    ∀ (script : List ClientStep) (st : LoopSt),
      st.current.reason = none →
      st.final_reason = none →
      (∀ r ∈ st.rounds, r.reason = none) →
      (runLoop env a maxIter script st).err = none →
      (runLoop env a maxIter script st).st.final_reason =
        lastRoundReason (runLoop env a maxIter script st).st.rounds
  | [], st => by
    intro hcur hfin hall herr
    by_cases hc : loopCond maxIter st.round_number = true
    · rw [runLoop] at herr
      simp [hc] at herr
    · rw [runLoop] at herr ⊢
      rw [if_neg hc] at herr ⊢
      rw [hfin, lastRoundReason_of_all_none hall]
  | none :: rest, st => by
    intro hcur hfin hall herr
    by_cases hc : loopCond maxIter st.round_number = true
    · rw [runLoop] at herr
      simp [hc] at herr
    · rw [runLoop] at herr ⊢
      rw [if_neg hc] at herr ⊢
      rw [hfin, lastRoundReason_of_all_none hall]
  | some resp :: rest, st => by
    intro hcur hfin hall herr
    by_cases hc : loopCond maxIter st.round_number = true
    swap
    · rw [runLoop] at herr ⊢
      rw [if_neg hc] at herr ⊢
      rw [hfin, lastRoundReason_of_all_none hall]
    rw [runLoop] at herr ⊢
    rw [if_pos hc] at herr ⊢
    rcases hpr : processRound env a maxIter resp st with ⟨e, st2, b⟩
    simp only [hpr] at herr ⊢
    match e, b with
    | some e', _ => simp at herr
    | none, true =>
      obtain ⟨hrounds, hsync, -, -⟩ := processRound_brk hpr hcur
      show st2.final_reason = lastRoundReason st2.rounds
      rw [hrounds, lastRoundReason_concat, hsync]
    | none, false =>
      obtain ⟨hcur2, -, hfin2, ⟨rd, hrounds, hrdn⟩, -, -⟩ := processRound_continue hpr hcur
      refine runLoop_sync env a maxIter rest st2 hcur2 (by rw [hfin2, hfin]) ?_ herr
      intro r hr
      rw [hrounds] at hr
      rcases List.mem_append.mp hr with hr | hr
      · exact hall r hr
      · rw [List.mem_singleton.mp hr, hrdn]

theorem loopCond_some {N rn : Nat} : loopCond (some N) rn = true ↔ rn < N := by
  simp [loopCond]

theorem atMax_some {N rn : Nat} : atMax (some N) rn = true ↔ N ≤ rn := by
  simp [atMax]

/-- With `max_iterations = N`, an exception-free run of the conversation loop
records at most `N` rounds, and when it records exactly `N` the last round's
reason is `handoff`, `work_done` or `round_limit`. -/
theorem runLoop_bound (env : Env) (a : AgentCfg) (N : Nat) :
    ∀ (script : List ClientStep) (st : LoopSt),
      st.rounds.length = st.round_number →
      st.round_number ≤ N →
      st.current.reason = none →
      (st.round_number = N → 1 ≤ N →
        lastRoundReason st.rounds = some "handoff" ∨
        lastRoundReason st.rounds = some "work_done" ∨
        lastRoundReason st.rounds = some "round_limit") →
      (runLoop env a (some N) script st).err = none →
      (runLoop env a (some N) script st).st.rounds.length ≤ N ∧
      ((runLoop env a (some N) script st).st.rounds.length = N → 1 ≤ N →
        lastRoundReason (runLoop env a (some N) script st).st.rounds = some "handoff" ∨
        lastRoundReason (runLoop env a (some N) script st).st.rounds = some "work_done" ∨
        lastRoundReason (runLoop env a (some N) script st).st.rounds = some "round_limit")
  | [], st => by
    intro hlen hle hcur hpre herr
    by_cases hc : loopCond (some N) st.round_number = true
    · rw [runLoop] at herr
      simp [hc] at herr
    · rw [runLoop] at herr ⊢
      rw [if_neg hc] at herr ⊢
      have : N ≤ st.round_number := by
        by_contra hlt
        exact hc (loopCond_some.mpr (Nat.lt_of_not_le hlt))
      have heq : st.round_number = N := Nat.le_antisymm hle this
      refine ⟨?_, fun hN h1 => ?_⟩
      · show st.rounds.length ≤ N
        omega
      · show lastRoundReason st.rounds = some "handoff" ∨
          lastRoundReason st.rounds = some "work_done" ∨
          lastRoundReason st.rounds = some "round_limit"
        exact hpre heq h1
  | none :: rest, st => by
    intro hlen hle hcur hpre herr
    by_cases hc : loopCond (some N) st.round_number = true
    · rw [runLoop] at herr
      simp [hc] at herr
    · rw [runLoop] at herr ⊢
      rw [if_neg hc] at herr ⊢
      have : N ≤ st.round_number := by
        by_contra hlt
        exact hc (loopCond_some.mpr (Nat.lt_of_not_le hlt))
      have heq : st.round_number = N := Nat.le_antisymm hle this
      refine ⟨?_, fun hN h1 => ?_⟩
      · show st.rounds.length ≤ N
        omega
      · show lastRoundReason st.rounds = some "handoff" ∨
          lastRoundReason st.rounds = some "work_done" ∨
          lastRoundReason st.rounds = some "round_limit"
        exact hpre heq h1
  | some resp :: rest, st => by
    intro hlen hle hcur hpre herr
    by_cases hc : loopCond (some N) st.round_number = true
    swap
    · rw [runLoop] at herr ⊢
      rw [if_neg hc] at herr ⊢
      have : N ≤ st.round_number := by
        by_contra hlt
        exact hc (loopCond_some.mpr (Nat.lt_of_not_le hlt))
      have heq : st.round_number = N := Nat.le_antisymm hle this
      refine ⟨?_, fun hN h1 => ?_⟩
      · show st.rounds.length ≤ N
        omega
      · show lastRoundReason st.rounds = some "handoff" ∨
          lastRoundReason st.rounds = some "work_done" ∨
          lastRoundReason st.rounds = some "round_limit"
        exact hpre heq h1
    have hlt : st.round_number < N := loopCond_some.mp hc
    rw [runLoop] at herr ⊢
    rw [if_pos hc] at herr ⊢
    rcases hpr : processRound env a (some N) resp st with ⟨e, st2, b⟩
    simp only [hpr] at herr ⊢
    match e, b with
    | some e', _ => simp at herr
    | none, true =>
      obtain ⟨hrounds2, -, -, hatmax⟩ := processRound_brk hpr hcur
      have hlen2 : st2.rounds.length = st.round_number + 1 := by
        rw [hrounds2]
        simp [hlen]
      refine ⟨?_, fun hN h1 => ?_⟩
      · show st2.rounds.length ≤ N
        omega
      · have hN' : st2.rounds.length = N := hN
        have hmax : atMax (some N) (st.round_number + 1) = true := by
          rw [atMax_some]
          omega
        show lastRoundReason st2.rounds = some "handoff" ∨
          lastRoundReason st2.rounds = some "work_done" ∨
          lastRoundReason st2.rounds = some "round_limit"
        rw [hrounds2, lastRoundReason_concat]
        exact hatmax hmax
    | none, false =>
      obtain ⟨hrn, ⟨rd, hrounds, -⟩, -⟩ := processRound_ok_frame hpr
      obtain ⟨hcur2, -, -, -, hatmax, -⟩ := processRound_continue hpr hcur
      have hlt2 : st.round_number + 1 < N := by
        rcases Nat.lt_or_ge (st.round_number + 1) N with h' | h'
        · exact h'
        · exact absurd (atMax_some.mpr h') (by simp [hatmax])
      refine runLoop_bound env a N rest st2 ?_ (by omega) hcur2 ?_ herr
      · rw [hrounds, hrn]
        simp [hlen]
      · intro hN h1
        exfalso
        omega

/-! ### Interface lemmas for the attempt body and the retry wrapper -/

theorem setLastReason_length (rs : List Round) (s : String) :
    (setLastReason rs s).length = rs.length := by
  unfold setLastReason
  cases hg : rs.getLast? with
  | none => rfl
  | some r =>
    have hne : rs ≠ [] := fun h => by simp [h] at hg
    have hpos : 0 < rs.length := List.length_pos.mpr hne
    simp [List.length_dropLast]
    omega

theorem setLastHandoff_length (rs : List Round) (n : String) :
    (setLastHandoff rs n).length = rs.length := by
  unfold setLastHandoff
  cases hg : rs.getLast? with
  | none => rfl
  | some r =>
    have hne : rs ≠ [] := fun h => by simp [h] at hg
    have hpos : 0 < rs.length := List.length_pos.mpr hne
    simp [List.length_dropLast]
    omega

theorem roundPromptSum_append (xs ys : List Round) :
    roundPromptSum (xs ++ ys) = roundPromptSum xs + roundPromptSum ys := by
  simp [roundPromptSum]

theorem roundCompletionSum_append (xs ys : List Round) :
    roundCompletionSum (xs ++ ys) = roundCompletionSum xs + roundCompletionSum ys := by
  simp [roundCompletionSum]

theorem roundTotalSum_append (xs ys : List Round) :
    roundTotalSum (xs ++ ys) = roundTotalSum xs + roundTotalSum ys := by
  simp [roundTotalSum]

/-- Restamping the last round's reason does not change the recorded token
sums. -/
theorem roundSums_setLastReason (rs : List Round) (s : String) :
    roundPromptSum (setLastReason rs s) = roundPromptSum rs ∧
    roundCompletionSum (setLastReason rs s) = roundCompletionSum rs ∧
    roundTotalSum (setLastReason rs s) = roundTotalSum rs := by
  unfold setLastReason
  cases hg : rs.getLast? with
  | none => exact ⟨rfl, rfl, rfl⟩
  | some r =>
    have hdec : rs.dropLast ++ [r] = rs :=
      List.dropLast_append_getLast? r (Option.mem_def.mpr hg)
    refine ⟨?_, ?_, ?_⟩
    · rw [roundPromptSum_append, ← hdec, roundPromptSum_append]
      simp [roundPromptSum]
    · rw [roundCompletionSum_append, ← hdec, roundCompletionSum_append]
      simp [roundCompletionSum]
    · rw [roundTotalSum_append, ← hdec, roundTotalSum_append]
      simp [roundTotalSum]

/-- Overwriting the last round's hand-off does not change the recorded token
sums. -/
theorem roundSums_setLastHandoff (rs : List Round) (n : String) :
    roundPromptSum (setLastHandoff rs n) = roundPromptSum rs ∧
    roundCompletionSum (setLastHandoff rs n) = roundCompletionSum rs ∧
    roundTotalSum (setLastHandoff rs n) = roundTotalSum rs := by
  unfold setLastHandoff
  cases hg : rs.getLast? with
  | none => exact ⟨rfl, rfl, rfl⟩
  | some r =>
    have hdec : rs.dropLast ++ [r] = rs :=
      List.dropLast_append_getLast? r (Option.mem_def.mpr hg)
    refine ⟨?_, ?_, ?_⟩
    · rw [roundPromptSum_append, ← hdec, roundPromptSum_append]
      simp [roundPromptSum]
    · rw [roundCompletionSum_append, ← hdec, roundCompletionSum_append]
      simp [roundCompletionSum]
    · rw [roundTotalSum_append, ← hdec, roundTotalSum_append]
      simp [roundTotalSum]

theorem initLoopSt_proj (a : AgentCfg) (memory : List Msg) (ctx : ContextInst)
    (input_text : String) (clear_memory : Bool) :
    (initLoopSt a memory ctx input_text clear_memory).rounds = [] ∧
    (initLoopSt a memory ctx input_text clear_memory).round_number = 0 ∧
    (initLoopSt a memory ctx input_text clear_memory).ctx = ctx ∧
    (initLoopSt a memory ctx input_text clear_memory).current.reason = none ∧
    (initLoopSt a memory ctx input_text clear_memory).current.token_usage = none ∧
    (initLoopSt a memory ctx input_text clear_memory).final_reason = none ∧
    (initLoopSt a memory ctx input_text clear_memory).handoff_target = none := by
  refine ⟨rfl, rfl, rfl, rfl, rfl, rfl, rfl⟩

/-- `applyNextAgent` without a forced successor is the identity on its
inputs. -/
theorem applyNextAgent_none {a : AgentCfg} (st : LoopSt) (h : a.next_agent = none) :
    applyNextAgent a st = (none, st.rounds, st.final_reason, st.handoff_target) := by
  unfold applyNextAgent
  rw [h]

/-- `applyNextAgent` with a forced successor and a non-empty rounds list:
no exception, the target is the forced successor, the final reason is kept
exactly when the last round ended by `work_done` and becomes `handoff`
otherwise, and the rounds keep their length and token sums. -/
theorem applyNextAgent_some {a : AgentCfg} {na : AgentRef} (st : LoopSt)
    (h : a.next_agent = some na) (hne : st.rounds ≠ []) :
    (applyNextAgent a st).1 = none ∧
    (applyNextAgent a st).2.2.2 = some na ∧
    (lastRoundReason st.rounds = some "work_done" →
      (applyNextAgent a st).2.2.1 = st.final_reason) ∧
    (lastRoundReason st.rounds ≠ some "work_done" →
      (applyNextAgent a st).2.2.1 = some "handoff") ∧
    (applyNextAgent a st).2.1.length = st.rounds.length ∧
    roundPromptSum (applyNextAgent a st).2.1 = roundPromptSum st.rounds ∧
    roundCompletionSum (applyNextAgent a st).2.1 = roundCompletionSum st.rounds ∧
    roundTotalSum (applyNextAgent a st).2.1 = roundTotalSum st.rounds := by
  simp only [applyNextAgent, h]
  rw [if_neg (by simpa using hne)]
  by_cases hw : lastRoundReason st.rounds = some "work_done"
  · rw [if_neg (by simpa using hw)]
    obtain ⟨p1, p2, p3⟩ := roundSums_setLastHandoff st.rounds na.name
    exact ⟨rfl, rfl, fun _ => rfl, fun hx => absurd hw hx,
      setLastHandoff_length st.rounds na.name, p1, p2, p3⟩
  · rw [if_pos (by simpa using hw)]
    obtain ⟨p1, p2, p3⟩ := roundSums_setLastHandoff st.rounds na.name
    obtain ⟨q1, q2, q3⟩ := roundSums_setLastReason (setLastHandoff st.rounds na.name) "handoff"
    refine ⟨rfl, rfl, fun hx => absurd hx hw, fun _ => rfl, ?_, ?_, ?_, ?_⟩
    · rw [setLastReason_length, setLastHandoff_length]
    · rw [q1, p1]
    · rw [q2, p2]
    · rw [q3, p3]

/-- The retry wrapper always returns some single attempt's outcome verbatim:
whatever `processRetry` returns — result, recorded rounds, memory, context,
remaining script — is exactly the output of one `_process_with_retry` attempt
(the last one executed).  In particular no data from discarded failed attempts
appears in the returned result or rounds. -/
theorem processRetry_eq_attempt (env : Env) (a : AgentCfg) :
    ∀ (retries : Nat) (mem : List Msg) (ctx : ContextInst) (script : List ClientStep)
      (input : String) (maxIter : Option Nat) (clearMem : Bool),
      ∃ (mem' : List Msg) (ctx' : ContextInst) (script' : List ClientStep),
        processRetry env a retries mem ctx script input maxIter clearMem =
          processOnce env a mem' ctx' script' input maxIter clearMem
  | 0, mem, ctx, script, input, maxIter, clearMem =>
    ⟨mem, ctx, script, by rw [processRetry]⟩
  | Nat.succ k, mem, ctx, script, input, maxIter, clearMem => by
    rw [processRetry]
    rcases hoe : (processOnce env a mem ctx script input maxIter clearMem).err with _ | e
    · exact ⟨mem, ctx, script, by simp [hoe]⟩
    · simp only [hoe]
      by_cases hr : retryable e = true
      · simp only [hr, if_true]
        exact processRetry_eq_attempt env a k _ _ _ input maxIter clearMem
      · rw [Bool.not_eq_true] at hr
        simp only [hr]
        exact ⟨mem, ctx, script, by simp⟩

/-- Structure of an exception-free `_process_with_retry` attempt: the loop
finished cleanly, the override raised nothing, and result, rounds, context and
remaining script are the evident projections. -/
theorem processOnce_ok_struct (env : Env) (a : AgentCfg) (mem : List Msg)
    (ctx : ContextInst) (script : List ClientStep) (input : String)
    (maxIter : Option Nat) (clearMem : Bool)
    (h : (processOnce env a mem ctx script input maxIter clearMem).err = none) :
    (runLoop env a maxIter script (initLoopSt a mem ctx input clearMem)).err = none ∧
    (applyNextAgent a (runLoop env a maxIter script (initLoopSt a mem ctx input clearMem)).st).1
      = none ∧
    (processOnce env a mem ctx script input maxIter clearMem).result =
      some (buildResult input
        (runLoop env a maxIter script (initLoopSt a mem ctx input clearMem)).st
        (applyNextAgent a
          (runLoop env a maxIter script (initLoopSt a mem ctx input clearMem)).st).2.2.1
        (applyNextAgent a
          (runLoop env a maxIter script (initLoopSt a mem ctx input clearMem)).st).2.2.2) ∧
    (processOnce env a mem ctx script input maxIter clearMem).rounds =
      (applyNextAgent a
        (runLoop env a maxIter script (initLoopSt a mem ctx input clearMem)).st).2.1 ∧
    (processOnce env a mem ctx script input maxIter clearMem).ctx =
      (runLoop env a maxIter script (initLoopSt a mem ctx input clearMem)).st.ctx ∧
    (processOnce env a mem ctx script input maxIter clearMem).rest =
      (runLoop env a maxIter script (initLoopSt a mem ctx input clearMem)).rest := by
  unfold processOnce at h ⊢
  rcases hoe : (runLoop env a maxIter script (initLoopSt a mem ctx input clearMem)).err
    with _ | e
  swap
  · simp [hoe] at h
  simp only [hoe] at h ⊢
  rcases han : applyNextAgent a
      (runLoop env a maxIter script (initLoopSt a mem ctx input clearMem)).st
    with ⟨e1, rounds1, fr1, ht1⟩
  match e1 with
  | some e' => simp [han] at h
  | none => simp [han]

/-- `Agent.process` forwards the retry wrapper's outcome fields. -/
theorem process_proj (env : Env) (a : AgentCfg) (retries : Nat) (cv : ClassVars)
    (mem : List Msg) (ctx : ContextInst) (script : List ClientStep) (input : String)
    (maxIter : Option Nat) (clearMem : Bool) :
    (Agent.process env a retries cv mem ctx script input maxIter clearMem).result =
      (processRetry env a retries mem ctx script input maxIter clearMem).result ∧
    (Agent.process env a retries cv mem ctx script input maxIter clearMem).rounds =
      (processRetry env a retries mem ctx script input maxIter clearMem).rounds ∧
    (Agent.process env a retries cv mem ctx script input maxIter clearMem).ctx =
      (processRetry env a retries mem ctx script input maxIter clearMem).ctx := by
  unfold Agent.process
  rcases h : (processRetry env a retries mem ctx script input maxIter clearMem).result
    with _ | r <;> simp [h]

/-- The conversation loop only ever adds to the context's token accumulator,
whatever its outcome. -/
theorem runLoop_mono (env : Env) (a : AgentCfg) (maxIter : Option Nat) :
    ∀ (script : List ClientStep) (st : LoopSt),
      st.ctx.token_usage.prompt_tokens ≤
        (runLoop env a maxIter script st).st.ctx.token_usage.prompt_tokens ∧
      st.ctx.token_usage.completion_tokens ≤
        (runLoop env a maxIter script st).st.ctx.token_usage.completion_tokens ∧
      st.ctx.token_usage.total_tokens ≤
        (runLoop env a maxIter script st).st.ctx.token_usage.total_tokens
  | [], st => by
    rw [runLoop]
    split <;> simp
  | none :: rest, st => by
    rw [runLoop]
    split <;> simp
  | some resp :: rest, st => by
    rw [runLoop]
    split
    · rcases hpr : processRound env a maxIter resp st with ⟨e, st2, b⟩
      have hmono := processRound_ctx_mono hpr
      match e, b with
      | some e', _ => simpa using hmono
      | none, true => simpa using hmono
      | none, false =>
        have ih := runLoop_mono env a maxIter rest st2
        simp only []
        exact ⟨hmono.1.trans ih.1, hmono.2.1.trans ih.2.1, hmono.2.2.trans ih.2.2⟩
    · simp

/-- The unconsumed remainder of the client script is a suffix of the script. -/
theorem runLoop_rest_suffix (env : Env) (a : AgentCfg) (maxIter : Option Nat) :
    ∀ (script : List ClientStep) (st : LoopSt),
      (runLoop env a maxIter script st).rest <:+ script
  | [], st => by
    rw [runLoop]
    split <;> simp
  | none :: rest, st => by
    rw [runLoop]
    split
    · exact List.suffix_cons none rest
    · simp
  | some resp :: rest, st => by
    rw [runLoop]
    split
    · rcases hpr : processRound env a maxIter resp st with ⟨e, st2, b⟩
      match e, b with
      | some e', _ => exact List.suffix_cons (some resp) rest
      | none, true => exact List.suffix_cons (some resp) rest
      | none, false =>
        exact (runLoop_rest_suffix env a maxIter rest st2).trans
          (List.suffix_cons (some resp) rest)
    · simp

theorem wfScript_of_suffix {l l' : List ClientStep} (h : WfScript l) (hs : l' <:+ l) :
    WfScript l' :=
  fun step hstep => h step (hs.subset hstep)

/-- A successful `next_agent` override keeps the rounds' length and token
sums (it only restamps the last round's hand-off and reason). -/
theorem applyNextAgent_sums (a : AgentCfg) (st : LoopSt)
    (h : (applyNextAgent a st).1 = none) :
    (applyNextAgent a st).2.1.length = st.rounds.length ∧
    roundPromptSum (applyNextAgent a st).2.1 = roundPromptSum st.rounds ∧
    roundCompletionSum (applyNextAgent a st).2.1 = roundCompletionSum st.rounds ∧
    roundTotalSum (applyNextAgent a st).2.1 = roundTotalSum st.rounds := by
  rcases hna : a.next_agent with _ | na
  · rw [applyNextAgent_none st hna]
    exact ⟨rfl, rfl, rfl, rfl⟩
  · by_cases hemp : st.rounds.isEmpty
    · exfalso
      simp only [applyNextAgent, hna, if_pos hemp] at h
      exact Option.some_ne_none _ h
    · have hne : st.rounds ≠ [] := by simpa using hemp
      obtain ⟨-, -, -, -, l1, p1, p2, p3⟩ := applyNextAgent_some st hna hne
      exact ⟨l1, p1, p2, p3⟩

/-- An attempt body only ever adds to the context's token accumulator. -/
theorem processOnce_mono (env : Env) (a : AgentCfg) (mem : List Msg)
    (ctx : ContextInst) (script : List ClientStep) (input : String)
    (maxIter : Option Nat) (clearMem : Bool) :
    ctx.token_usage.prompt_tokens ≤
      (processOnce env a mem ctx script input maxIter clearMem).ctx.token_usage.prompt_tokens ∧
    ctx.token_usage.completion_tokens ≤
      (processOnce env a mem ctx script input maxIter clearMem).ctx.token_usage.completion_tokens ∧
    ctx.token_usage.total_tokens ≤
      (processOnce env a mem ctx script input maxIter clearMem).ctx.token_usage.total_tokens := by
  have hm := runLoop_mono env a maxIter script (initLoopSt a mem ctx input clearMem)
  unfold processOnce
  rcases hoe : (runLoop env a maxIter script (initLoopSt a mem ctx input clearMem)).err
    with _ | e
  · simp only [hoe]
    rcases han : applyNextAgent a
        (runLoop env a maxIter script (initLoopSt a mem ctx input clearMem)).st
      with ⟨e1, rounds1, fr1, ht1⟩
    match e1 with
    | some e' => simpa [initLoopSt] using hm
    | none => simpa [initLoopSt] using hm
  · simp only [hoe]
    simpa [initLoopSt] using hm

/-- A successful attempt body records into the shared context exactly the
token sums of the rounds it returns. -/
theorem processOnce_token (env : Env) (a : AgentCfg) (mem : List Msg)
    (ctx : ContextInst) (script : List ClientStep) (input : String)
    (maxIter : Option Nat) (clearMem : Bool)
    (hwf : WfScript script)
    (h : (processOnce env a mem ctx script input maxIter clearMem).err = none) :
    (processOnce env a mem ctx script input maxIter clearMem).ctx.token_usage.prompt_tokens =
      ctx.token_usage.prompt_tokens +
        roundPromptSum (processOnce env a mem ctx script input maxIter clearMem).rounds ∧
    (processOnce env a mem ctx script input maxIter clearMem).ctx.token_usage.completion_tokens =
      ctx.token_usage.completion_tokens +
        roundCompletionSum (processOnce env a mem ctx script input maxIter clearMem).rounds ∧
    (processOnce env a mem ctx script input maxIter clearMem).ctx.token_usage.total_tokens =
      ctx.token_usage.total_tokens +
        roundTotalSum (processOnce env a mem ctx script input maxIter clearMem).rounds := by
  obtain ⟨hloop, hnext, -, hrounds, hctx, -⟩ :=
    processOnce_ok_struct env a mem ctx script input maxIter clearMem h
  obtain ⟨new, hnew, hp, hc, ht⟩ :=
    runLoop_token env a maxIter script (initLoopSt a mem ctx input clearMem) hwf rfl hloop
  obtain ⟨-, s1, s2, s3⟩ := applyNextAgent_sums a
    (runLoop env a maxIter script (initLoopSt a mem ctx input clearMem)).st hnext
  have hnew' : (runLoop env a maxIter script
      (initLoopSt a mem ctx input clearMem)).st.rounds = new := by
    simpa [initLoopSt] using hnew
  refine ⟨?_, ?_, ?_⟩
  · rw [hctx, hrounds, s1, hnew', hp]
    rfl
  · rw [hctx, hrounds, s2, hnew', hc]
    rfl
  · rw [hctx, hrounds, s3, hnew', ht]
    rfl

/-- An attempt body yields a result exactly when it raises nothing. -/
theorem processOnce_err_result (env : Env) (a : AgentCfg) (mem : List Msg)
    (ctx : ContextInst) (script : List ClientStep) (input : String)
    (maxIter : Option Nat) (clearMem : Bool) :
    (processOnce env a mem ctx script input maxIter clearMem).err = none ↔
    (processOnce env a mem ctx script input maxIter clearMem).result ≠ none := by
  unfold processOnce
  rcases hoe : (runLoop env a maxIter script (initLoopSt a mem ctx input clearMem)).err
    with _ | e
  · simp only [hoe]
    rcases han : applyNextAgent a
        (runLoop env a maxIter script (initLoopSt a mem ctx input clearMem)).st
      with ⟨e1, rounds1, fr1, ht1⟩
    match e1 with
    | some e' => simp
    | none => simp
  · simp [hoe]

/-- The script an attempt leaves unconsumed is a suffix of what it was
given. -/
theorem processOnce_rest_suffix (env : Env) (a : AgentCfg) (mem : List Msg)
    (ctx : ContextInst) (script : List ClientStep) (input : String)
    (maxIter : Option Nat) (clearMem : Bool) :
    (processOnce env a mem ctx script input maxIter clearMem).rest <:+ script := by
  have hs := runLoop_rest_suffix env a maxIter script (initLoopSt a mem ctx input clearMem)
  unfold processOnce
  rcases hoe : (runLoop env a maxIter script (initLoopSt a mem ctx input clearMem)).err
    with _ | e
  · simp only [hoe]
    rcases han : applyNextAgent a
        (runLoop env a maxIter script (initLoopSt a mem ctx input clearMem)).st
      with ⟨e1, rounds1, fr1, ht1⟩
    match e1 with
    | some e' => simpa using hs
    | none => simpa using hs
  · simp only [hoe]
    simpa using hs

/-- When the first attempt succeeds, the retry wrapper returns it untouched
(no retry happens). -/
theorem processRetry_first_ok (env : Env) (a : AgentCfg) (retries : Nat)
    (mem : List Msg) (ctx : ContextInst) (script : List ClientStep) (input : String)
    (maxIter : Option Nat) (clearMem : Bool)
    (h : (processOnce env a mem ctx script input maxIter clearMem).err = none) :
    processRetry env a retries mem ctx script input maxIter clearMem =
      processOnce env a mem ctx script input maxIter clearMem := by
  cases retries with
  | zero => rw [processRetry]
  | succ k =>
    rw [processRetry]
    simp [h]

/-- The retry wrapper yields a result exactly when it surfaces no failure. -/
theorem processRetry_err_result (env : Env) (a : AgentCfg) (retries : Nat)
    (mem : List Msg) (ctx : ContextInst) (script : List ClientStep) (input : String)
    (maxIter : Option Nat) (clearMem : Bool) :
    (processRetry env a retries mem ctx script input maxIter clearMem).err = none ↔
    (processRetry env a retries mem ctx script input maxIter clearMem).result ≠ none := by
  obtain ⟨m, c, s, heq⟩ :=
    processRetry_eq_attempt env a retries mem ctx script input maxIter clearMem
  rw [heq]
  exact processOnce_err_result env a m c s input maxIter clearMem

/-- `Agent.process` surfaces exactly the retry wrapper's failure. -/
theorem process_err (env : Env) (a : AgentCfg) (retries : Nat) (cv : ClassVars)
    (mem : List Msg) (ctx : ContextInst) (script : List ClientStep) (input : String)
    (maxIter : Option Nat) (clearMem : Bool) :
    (Agent.process env a retries cv mem ctx script input maxIter clearMem).err =
      (processRetry env a retries mem ctx script input maxIter clearMem).err := by
  unfold Agent.process
  rcases h : (processRetry env a retries mem ctx script input maxIter clearMem).result
    with _ | r
  · simp [h]
  · simp only [h]
    exact ((processRetry_err_result env a retries mem ctx script input maxIter
      clearMem).mpr (by simp [h])).symm

/-- Across retries the shared context accumulates at least the token sums of
the finally recorded rounds (failed attempts only add more). -/
theorem processRetry_token_ge (env : Env) (a : AgentCfg) :
    ∀ (retries : Nat) (mem : List Msg) (ctx : ContextInst) (script : List ClientStep)
      (input : String) (maxIter : Option Nat) (clearMem : Bool),
      WfScript script →
      (processRetry env a retries mem ctx script input maxIter clearMem).err = none →
      ctx.token_usage.prompt_tokens +
          roundPromptSum (processRetry env a retries mem ctx script input maxIter clearMem).rounds ≤
        (processRetry env a retries mem ctx script input maxIter clearMem).ctx.token_usage.prompt_tokens ∧
      ctx.token_usage.completion_tokens +
          roundCompletionSum (processRetry env a retries mem ctx script input maxIter clearMem).rounds ≤
        (processRetry env a retries mem ctx script input maxIter clearMem).ctx.token_usage.completion_tokens ∧
      ctx.token_usage.total_tokens +
          roundTotalSum (processRetry env a retries mem ctx script input maxIter clearMem).rounds ≤
        (processRetry env a retries mem ctx script input maxIter clearMem).ctx.token_usage.total_tokens
  | 0, mem, ctx, script, input, maxIter, clearMem => by
    intro hwf herr
    rw [processRetry] at herr ⊢
    obtain ⟨e1, e2, e3⟩ := processOnce_token env a mem ctx script input maxIter clearMem hwf herr
    exact ⟨e1.ge, e2.ge, e3.ge⟩
  | Nat.succ k, mem, ctx, script, input, maxIter, clearMem => by
    intro hwf herr
    rw [processRetry] at herr ⊢
    rcases hoe : (processOnce env a mem ctx script input maxIter clearMem).err with _ | e
    · simp only [hoe] at herr ⊢
      obtain ⟨e1, e2, e3⟩ :=
        processOnce_token env a mem ctx script input maxIter clearMem hwf hoe
      exact ⟨e1.ge, e2.ge, e3.ge⟩
    · simp only [hoe] at herr ⊢
      by_cases hr : retryable e = true
      · simp only [hr, if_true] at herr ⊢
        have hwf' : WfScript (processOnce env a mem ctx script input maxIter clearMem).rest :=
          wfScript_of_suffix hwf
            (processOnce_rest_suffix env a mem ctx script input maxIter clearMem)
        obtain ⟨i1, i2, i3⟩ := processRetry_token_ge env a k _ _ _ input maxIter clearMem hwf' herr
        obtain ⟨m1, m2, m3⟩ := processOnce_mono env a mem ctx script input maxIter clearMem
        exact ⟨le_trans (by omega) i1, le_trans (by omega) i2, le_trans (by omega) i3⟩
      · rw [Bool.not_eq_true] at hr
        simp [hr, hoe] at herr

/-- Reading the hand-off target back out of a built result. -/
theorem buildResult_handoff_to {input : String} {st : LoopSt} {fr : Option String}
    {ht : Option AgentRef} {hi : HandoffInfo}
    (h : (buildResult input st fr ht).handoff = some hi) : ht = some hi.to := by
  rcases ht with _ | t
  · simp [buildResult] at h
  · simp only [buildResult, Option.some.injEq] at h
    subst h
    rfl

/-! ### Claim theorems -/

/-- C1 (amended).  Within one round's response, a hand-off request naming an
agent in the configured `handoffs` set short-circuits the REMAINDER of the
tool-call list: processing `pre ++ handoffCall :: post` — where `pre` runs
without exception or hand-off and `handoffCall` names a configured target with
parseable arguments — stops at the hand-off with the round's terminal state
`handoff`, and the output does not depend on `post` (no tool call listed after
the hand-off is dispatched); the dispatch records of the calls in `pre`,
listed before the hand-off, are kept (those calls WERE dispatched, which is
what the original claim denied). -/
theorem C1_amended (env : Env) (a : AgentCfg) (rc : Option String)
    (pre post : List ToolCall) (st : LoopSt) (wd : Bool) (acc : List ToolCallRecord)
    (hc : ToolCall) (args : JsonObj) (ag : AgentRef)
    (h1 : pyStartsWith hc.function.name "handoff_to_" = true)
    (h2 : env.jsonLoads hc.function.arguments = some args)
    (h3 : a.handoffs.find? (fun x => x.name == pyDrop hc.function.name 11) = some ag)
    (h4 : (processToolCalls env a rc pre st wd acc).err = none)
    (h5 : (processToolCalls env a rc pre st wd acc).handoffReq = false) :
    processToolCalls env a rc (pre ++ hc :: post) st wd acc =
      ⟨none,
       { (processToolCalls env a rc pre st wd acc).st with
          handoff_instructions := some (args.get "instructions" "")
          current := { (processToolCalls env a rc pre st wd acc).st.current with
                        handoff := some ag.name
                        reason := some "handoff" }
          handoff_target := some ag
          final_reason := some "handoff" },
       true,
       (processToolCalls env a rc pre st wd acc).workDone,
       (processToolCalls env a rc pre st wd acc).acc⟩ := by
  rw [processToolCalls_append]
  simp only [h4, h5, and_self, if_true]
  rw [processToolCalls]
  simp [h1, h2, h3]

/-- C2.  For every call to `Agent.process` that returns a result carrying a
hand-off, the hand-off's target is an agent of the configured `handoffs` set
or the statically configured `next_agent` — never any other agent.  (A model
hand-off request naming a target outside `handoffs` never transfers
control.) -/
theorem C2_handoff_containment (env : Env) (a : AgentCfg) (retries : Nat)
    (cv : ClassVars) (mem : List Msg) (ctx : ContextInst) (script : List ClientStep)
    (input : String) (maxIter : Option Nat) (clearMem : Bool) (r : ProcResult)
    (hi : HandoffInfo)
    (hres : (Agent.process env a retries cv mem ctx script input maxIter clearMem).result
      = some r)
    (hh : r.handoff = some hi) :
    hi.to ∈ a.handoffs ∨ a.next_agent = some hi.to := by
  rw [(process_proj env a retries cv mem ctx script input maxIter clearMem).1] at hres
  obtain ⟨mem', ctx', script', heq⟩ :=
    processRetry_eq_attempt env a retries mem ctx script input maxIter clearMem
  rw [heq] at hres
  have herr : (processOnce env a mem' ctx' script' input maxIter clearMem).err = none :=
    (processOnce_err_result env a mem' ctx' script' input maxIter clearMem).mpr
      (by simp [hres])
  obtain ⟨hloop, hnext, hresult, -, -, -⟩ :=
    processOnce_ok_struct env a mem' ctx' script' input maxIter clearMem herr
  rw [hresult] at hres
  have hr : r = buildResult input
      (runLoop env a maxIter script' (initLoopSt a mem' ctx' input clearMem)).st
      (applyNextAgent a
        (runLoop env a maxIter script' (initLoopSt a mem' ctx' input clearMem)).st).2.2.1
      (applyNextAgent a
        (runLoop env a maxIter script' (initLoopSt a mem' ctx' input clearMem)).st).2.2.2 :=
    (Option.some.injEq _ _ ▸ hres).symm
  rw [hr] at hh
  have hto := buildResult_handoff_to hh
  rcases hna : a.next_agent with _ | na
  · have han := applyNextAgent_none
      (runLoop env a maxIter script' (initLoopSt a mem' ctx' input clearMem)).st hna
    rw [han] at hto
    rcases runLoop_handoff env a maxIter script' (initLoopSt a mem' ctx' input clearMem)
      with hht | ⟨ag, hag, hht⟩
    · exfalso
      rw [(initLoopSt_proj a mem' ctx' input clearMem).2.2.2.2.2.2] at hht
      rw [hht] at hto
      exact Option.noConfusion hto
    · rw [hht] at hto
      have heq2 : ag = hi.to := Option.some.injEq _ _ ▸ hto
      exact Or.inl (heq2 ▸ hag)
  · by_cases hemp : (runLoop env a maxIter script'
        (initLoopSt a mem' ctx' input clearMem)).st.rounds.isEmpty
    · exfalso
      simp only [applyNextAgent, hna, if_pos hemp] at hnext
      exact Option.some_ne_none _ hnext
    · have hne : (runLoop env a maxIter script'
          (initLoopSt a mem' ctx' input clearMem)).st.rounds ≠ [] := by simpa using hemp
      obtain ⟨-, hna', -⟩ := applyNextAgent_some
        (runLoop env a maxIter script' (initLoopSt a mem' ctx' input clearMem)).st hna hne
      rw [hna'] at hto
      have heq2 : na = hi.to := Option.some.injEq _ _ ▸ hto
      exact Or.inr (by rw [← heq2])

/-- Attempt-level forced-successor property: for a completed
`_process_with_retry` body on an agent whose `next_agent` is set, the returned
result's hand-off target is that `next_agent`; if the conversation loop's
terminal reason was `work_done` the forced hand-off is attached without
changing that reason, and for any other terminal reason the final reason
becomes `handoff`. -/
theorem processOnce_forced_successor (env : Env) (a : AgentCfg) (mem : List Msg)
    (ctx : ContextInst) (script : List ClientStep) (input : String)
    (maxIter : Option Nat) (clearMem : Bool) (na : AgentRef) (r : ProcResult)
    (hna : a.next_agent = some na)
    (hres : (processOnce env a mem ctx script input maxIter clearMem).result = some r) :
    (∃ instr, r.handoff = some ⟨na, instr⟩) ∧
    ((runLoop env a maxIter script (initLoopSt a mem ctx input clearMem)).st.final_reason =
        some "work_done" → r.reason = some "work_done") ∧
    ((runLoop env a maxIter script (initLoopSt a mem ctx input clearMem)).st.final_reason ≠
        some "work_done" → r.reason = some "handoff") := by
  have herr : (processOnce env a mem ctx script input maxIter clearMem).err = none :=
    (processOnce_err_result env a mem ctx script input maxIter clearMem).mpr
      (by simp [hres])
  obtain ⟨hloop, hnext, hresult, -, -, -⟩ :=
    processOnce_ok_struct env a mem ctx script input maxIter clearMem herr
  rw [hresult] at hres
  have hr : r = buildResult input
      (runLoop env a maxIter script (initLoopSt a mem ctx input clearMem)).st
      (applyNextAgent a
        (runLoop env a maxIter script (initLoopSt a mem ctx input clearMem)).st).2.2.1
      (applyNextAgent a
        (runLoop env a maxIter script (initLoopSt a mem ctx input clearMem)).st).2.2.2 :=
    (Option.some.injEq _ _ ▸ hres).symm
  by_cases hemp : (runLoop env a maxIter script
      (initLoopSt a mem ctx input clearMem)).st.rounds.isEmpty
  · exfalso
    simp only [applyNextAgent, hna, if_pos hemp] at hnext
    exact Option.some_ne_none _ hnext
  have hne : (runLoop env a maxIter script
      (initLoopSt a mem ctx input clearMem)).st.rounds ≠ [] := by simpa using hemp
  obtain ⟨-, hht, hwd, hnwd, -⟩ := applyNextAgent_some
    (runLoop env a maxIter script (initLoopSt a mem ctx input clearMem)).st hna hne
  have hsync := runLoop_sync env a maxIter script (initLoopSt a mem ctx input clearMem)
    rfl rfl (by intro x hx; simp [initLoopSt] at hx) hloop
  refine ⟨?_, ?_, ?_⟩
  · refine ⟨(runLoop env a maxIter script
      (initLoopSt a mem ctx input clearMem)).st.handoff_instructions.getD "", ?_⟩
    rw [hr]
    simp [buildResult, hht]
  · intro hfr
    have hlast : lastRoundReason (runLoop env a maxIter script
        (initLoopSt a mem ctx input clearMem)).st.rounds = some "work_done" := by
      rw [← hsync, hfr]
    rw [hr]
    show (applyNextAgent a
      (runLoop env a maxIter script (initLoopSt a mem ctx input clearMem)).st).2.2.1 =
        some "work_done"
    rw [hwd hlast]
    exact hfr
  · intro hfr
    have hlast : lastRoundReason (runLoop env a maxIter script
        (initLoopSt a mem ctx input clearMem)).st.rounds ≠ some "work_done" := by
      rw [← hsync]
      exact hfr
    rw [hr]
    show (applyNextAgent a
      (runLoop env a maxIter script (initLoopSt a mem ctx input clearMem)).st).2.2.1 =
        some "handoff"
    exact hnwd hlast

/-- C3.  For every call to `Agent.process` on an agent whose `next_agent` is
set that returns a result, the result's hand-off target is that `next_agent`,
overriding any model-chosen hand-off.  The result is exactly that of the one
completed `_process_with_retry` attempt, and relative to that attempt's
conversation loop: if the loop's terminal reason was `work_done` the forced
hand-off is attached without changing that reason, while for any other
terminal reason the final reason becomes `handoff`. -/
theorem C3_forced_successor (env : Env) (a : AgentCfg) (retries : Nat)
    (cv : ClassVars) (mem : List Msg) (ctx : ContextInst) (script : List ClientStep)
    (input : String) (maxIter : Option Nat) (clearMem : Bool) (na : AgentRef)
    (r : ProcResult)
    (hna : a.next_agent = some na)
    (hres : (Agent.process env a retries cv mem ctx script input maxIter clearMem).result
      = some r) :
    (∃ instr, r.handoff = some ⟨na, instr⟩) ∧
    ∃ (mem' : List Msg) (ctx' : ContextInst) (script' : List ClientStep),
      processRetry env a retries mem ctx script input maxIter clearMem =
        processOnce env a mem' ctx' script' input maxIter clearMem ∧
      ((runLoop env a maxIter script'
          (initLoopSt a mem' ctx' input clearMem)).st.final_reason = some "work_done" →
        r.reason = some "work_done") ∧
      ((runLoop env a maxIter script'
          (initLoopSt a mem' ctx' input clearMem)).st.final_reason ≠ some "work_done" →
        r.reason = some "handoff") := by
  obtain ⟨mem', ctx', script', heq⟩ :=
    processRetry_eq_attempt env a retries mem ctx script input maxIter clearMem
  have hres' : (processOnce env a mem' ctx' script' input maxIter clearMem).result
      = some r := by
    rw [← heq,
      ← (process_proj env a retries cv mem ctx script input maxIter clearMem).1]
    exact hres
  obtain ⟨h1, h2, h3⟩ := processOnce_forced_successor env a mem' ctx' script' input
    maxIter clearMem na r hna hres'
  exact ⟨h1, mem', ctx', script', heq, h2, h3⟩

/-- Attempt-level single-round property: a completed `_process_with_retry`
attempt with `multi_turn = false` and `max_iterations` `None` or at least 1
records exactly one round and consumes exactly one completion response. -/
theorem processOnce_single_round (env : Env) (a : AgentCfg) (mem : List Msg) (ctx : ContextInst)
    (script : List ClientStep) (input : String) (maxIter : Option Nat) (clearMem : Bool)
    (hmt : a.multi_turn = false)
    (hiter : maxIter = none ∨ ∃ n, maxIter = some n ∧ 1 ≤ n)
    (hok : (processOnce env a mem ctx script input maxIter clearMem).err = none) :
    (processOnce env a mem ctx script input maxIter clearMem).rounds.length = 1 ∧
    (processOnce env a mem ctx script input maxIter clearMem).rest = script.tail := by
  obtain ⟨hloop, hnext, -, hrounds, -, hrest⟩ :=
    processOnce_ok_struct env a mem ctx script input maxIter clearMem hok
  have hc : loopCond maxIter (initLoopSt a mem ctx input clearMem).round_number = true := by
    rcases hiter with h | ⟨n, hn, h1⟩
    · simp [h, loopCond]
    · rw [hn]
      rw [loopCond_some]
      show 0 < n
      omega
  obtain ⟨hlen, -, -, -⟩ := applyNextAgent_sums a
    (runLoop env a maxIter script (initLoopSt a mem ctx input clearMem)).st hnext
  rw [hrounds, hlen, hrest]
  clear hrounds hlen hrest hnext
  rcases script with _ | ⟨step, rest⟩
  · rw [runLoop] at hloop
    simp [hc] at hloop
  rcases step with _ | resp
  · rw [runLoop] at hloop
    simp [hc] at hloop
  rw [runLoop] at hloop ⊢
  rw [if_pos hc] at hloop ⊢
  rcases hpr : processRound env a maxIter resp (initLoopSt a mem ctx input clearMem)
    with ⟨e, st2, b⟩
  simp only [hpr] at hloop ⊢
  match e, b with
  | some e', _ => simp at hloop
  | none, false =>
    obtain ⟨-, -, -, -, -, hmt'⟩ := processRound_continue hpr rfl
    rw [hmt'] at hmt
    exact absurd hmt (by simp)
  | none, true =>
    obtain ⟨-, ⟨rd, hrd, -⟩, -⟩ := processRound_ok_frame hpr
    constructor
    · show st2.rounds.length = 1
      rw [hrd]
      simp [initLoopSt]
    · rfl

/-- C5 (amended).  For every completed call to `Agent.process` on an agent
with `multi_turn = false` whose `max_iterations` is `None` or at least 1,
exactly one round is executed, and the one completed `_process_with_retry`
attempt consumes exactly one completion response from its script — regardless
of what the round's response requested; with `max_iterations = 0` zero rounds
run instead (see the counterexample). -/
theorem C5_amended (env : Env) (a : AgentCfg) (retries : Nat) (cv : ClassVars)
    (mem : List Msg) (ctx : ContextInst) (script : List ClientStep) (input : String)
    (maxIter : Option Nat) (clearMem : Bool)
    (hmt : a.multi_turn = false)
    (hiter : maxIter = none ∨ ∃ n, maxIter = some n ∧ 1 ≤ n)
    (hok : (Agent.process env a retries cv mem ctx script input maxIter clearMem).err
      = none) :
    (Agent.process env a retries cv mem ctx script input maxIter clearMem).rounds.length
      = 1 ∧
    ∃ (mem' : List Msg) (ctx' : ContextInst) (script' : List ClientStep),
      processRetry env a retries mem ctx script input maxIter clearMem =
        processOnce env a mem' ctx' script' input maxIter clearMem ∧
      (processOnce env a mem' ctx' script' input maxIter clearMem).rest =
        script'.tail := by
  obtain ⟨mem', ctx', script', heq⟩ :=
    processRetry_eq_attempt env a retries mem ctx script input maxIter clearMem
  have hok' : (processOnce env a mem' ctx' script' input maxIter clearMem).err = none := by
    rw [← heq,
      ← process_err env a retries cv mem ctx script input maxIter clearMem]
    exact hok
  obtain ⟨hlen, hrest⟩ := processOnce_single_round env a mem' ctx' script' input
    maxIter clearMem hmt hiter hok'
  refine ⟨?_, mem', ctx', script', heq, hrest⟩
  rw [(process_proj env a retries cv mem ctx script input maxIter clearMem).2.1, heq]
  exact hlen

/-- C6.  For every completed call to `Agent.process` with
`max_iterations = N` (N positive) and no forced successor, at most `N` rounds
are recorded, and if round `N` was reached without the loop having ended
earlier for another cause, the `N`-th round's termination reason is
`handoff`, `work_done` (a cause firing in round `N` itself) or `round_limit`
— in particular, a round-`N` response requesting only ordinary tool calls is
stamped `round_limit`. -/
theorem C6_round_cap (env : Env) (a : AgentCfg) (retries : Nat) (cv : ClassVars)
    (mem : List Msg) (ctx : ContextInst) (script : List ClientStep) (input : String)
    (clearMem : Bool) (N : Nat) (r : ProcResult)
    (hna : a.next_agent = none)
    (hres : (Agent.process env a retries cv mem ctx script input (some N) clearMem).result
      = some r) :
    (Agent.process env a retries cv mem ctx script input (some N) clearMem).rounds.length
      ≤ N ∧
    ((Agent.process env a retries cv mem ctx script input (some N) clearMem).rounds.length
        = N → 1 ≤ N →
      lastRoundReason
        (Agent.process env a retries cv mem ctx script input (some N) clearMem).rounds =
          some "handoff" ∨
      lastRoundReason
        (Agent.process env a retries cv mem ctx script input (some N) clearMem).rounds =
          some "work_done" ∨
      lastRoundReason
        (Agent.process env a retries cv mem ctx script input (some N) clearMem).rounds =
          some "round_limit") := by
  obtain ⟨hpres, hprounds, -⟩ :=
    process_proj env a retries cv mem ctx script input (some N) clearMem
  rw [hpres] at hres
  rw [hprounds]
  obtain ⟨mem', ctx', script', heq⟩ :=
    processRetry_eq_attempt env a retries mem ctx script input (some N) clearMem
  rw [heq] at hres ⊢
  have herr : (processOnce env a mem' ctx' script' input (some N) clearMem).err = none :=
    (processOnce_err_result env a mem' ctx' script' input (some N) clearMem).mpr
      (by simp [hres])
  obtain ⟨hloop, -, -, hrounds, -, -⟩ :=
    processOnce_ok_struct env a mem' ctx' script' input (some N) clearMem herr
  rw [hrounds, applyNextAgent_none _ hna]
  exact runLoop_bound env a N script' (initLoopSt a mem' ctx' input clearMem)
    rfl (Nat.zero_le N) rfl (fun h0 h1 => by simp [initLoopSt] at h0; exfalso; omega) hloop

/-- C9.  Every completed call to `Agent.process` appends exactly one entry to
the (shared) `Context.history`, holding the agent's name and the entire
returned result; all entries already present are preserved unchanged in
place, and a call that raises appends nothing. -/
theorem C9_history_append (env : Env) (a : AgentCfg) (retries : Nat) (cv : ClassVars)
    (mem : List Msg) (ctx : ContextInst) (script : List ClientStep) (input : String)
    (maxIter : Option Nat) (clearMem : Bool) (r : ProcResult)
    (hres : (Agent.process env a retries cv mem ctx script input maxIter clearMem).result
      = some r) :
    (Agent.process env a retries cv mem ctx script input maxIter clearMem).cv.history =
      cv.history ++ [⟨a.name, r⟩] := by
  unfold Agent.process at hres ⊢
  rcases hor : (processRetry env a retries mem ctx script input maxIter clearMem).result
    with _ | r'
  · simp [hor] at hres
  · simp only [hor] at hres ⊢
    have : r' = r := by simpa using hres
    rw [this]
    simp [addHistory]

/-- C4 (amended).  For a completed `Agent.process` call on a well-formed
client script, the shared context's token accumulator grows by AT LEAST the
per-round sums recorded in the returned rounds, with equality whenever the
first attempt succeeded (no retried rounds); a retried round leaves extra
usage in the context (see the counterexample), which is exactly how the
claimed equality fails. -/
theorem C4_amended (env : Env) (a : AgentCfg) (retries : Nat) (cv : ClassVars)
    (mem : List Msg) (ctx : ContextInst) (script : List ClientStep) (input : String)
    (maxIter : Option Nat) (clearMem : Bool) (r : ProcResult)
    (hwf : WfScript script)
    (hres : (Agent.process env a retries cv mem ctx script input maxIter clearMem).result
      = some r) :
    (ctx.token_usage.prompt_tokens +
        roundPromptSum
          (Agent.process env a retries cv mem ctx script input maxIter clearMem).rounds ≤
      (Agent.process env a retries cv mem ctx script input maxIter
        clearMem).ctx.token_usage.prompt_tokens) ∧
    (ctx.token_usage.completion_tokens +
        roundCompletionSum
          (Agent.process env a retries cv mem ctx script input maxIter clearMem).rounds ≤
      (Agent.process env a retries cv mem ctx script input maxIter
        clearMem).ctx.token_usage.completion_tokens) ∧
    (ctx.token_usage.total_tokens +
        roundTotalSum
          (Agent.process env a retries cv mem ctx script input maxIter clearMem).rounds ≤
      (Agent.process env a retries cv mem ctx script input maxIter
        clearMem).ctx.token_usage.total_tokens) ∧
    ((processOnce env a mem ctx script input maxIter clearMem).err = none →
      (Agent.process env a retries cv mem ctx script input maxIter
          clearMem).ctx.token_usage.prompt_tokens =
        ctx.token_usage.prompt_tokens +
          roundPromptSum
            (Agent.process env a retries cv mem ctx script input maxIter clearMem).rounds ∧
      (Agent.process env a retries cv mem ctx script input maxIter
          clearMem).ctx.token_usage.completion_tokens =
        ctx.token_usage.completion_tokens +
          roundCompletionSum
            (Agent.process env a retries cv mem ctx script input maxIter clearMem).rounds ∧
      (Agent.process env a retries cv mem ctx script input maxIter
          clearMem).ctx.token_usage.total_tokens =
        ctx.token_usage.total_tokens +
          roundTotalSum
            (Agent.process env a retries cv mem ctx script input maxIter clearMem).rounds) := by
  obtain ⟨hpres, hprounds, hpctx⟩ :=
    process_proj env a retries cv mem ctx script input maxIter clearMem
  rw [hpres] at hres
  rw [hprounds, hpctx]
  have herr : (processRetry env a retries mem ctx script input maxIter clearMem).err = none :=
    (processRetry_err_result env a retries mem ctx script input maxIter clearMem).mpr
      (by simp [hres])
  obtain ⟨g1, g2, g3⟩ :=
    processRetry_token_ge env a retries mem ctx script input maxIter clearMem hwf herr
  refine ⟨g1, g2, g3, fun hfirst => ?_⟩
  rw [processRetry_first_ok env a retries mem ctx script input maxIter clearMem hfirst]
  exact processOnce_token env a mem ctx script input maxIter clearMem hwf hfirst

/-- C7 (amended).  The retry wrapper's outcome is always that of one single
`_process_with_retry` attempt, returned verbatim: when it succeeds, the
result, the recorded rounds, the memory and context state and the remaining
script are exactly those of the one successful attempt, so no partial round
of a failed attempt appears in the final result or rounds (the shared
context's extra usage from failed attempts is witnessed by the
counterexample); and when the failure budget is exhausted the error surfaces
to the caller with no result. -/
theorem C7_amended (env : Env) (a : AgentCfg) (retries : Nat) (mem : List Msg)
    (ctx : ContextInst) (script : List ClientStep) (input : String)
    (maxIter : Option Nat) (clearMem : Bool) :
    (∃ (mem' : List Msg) (ctx' : ContextInst) (script' : List ClientStep),
        processRetry env a retries mem ctx script input maxIter clearMem =
          processOnce env a mem' ctx' script' input maxIter clearMem) ∧
    ((processRetry env a retries mem ctx script input maxIter clearMem).err ≠ none →
      (processRetry env a retries mem ctx script input maxIter clearMem).result = none) := by
  refine ⟨processRetry_eq_attempt env a retries mem ctx script input maxIter clearMem, ?_⟩
  intro hne
  rcases hr : (processRetry env a retries mem ctx script input maxIter clearMem).result
    with _ | r
  · rfl
  · exact absurd ((processRetry_err_result env a retries mem ctx script input maxIter
      clearMem).mpr (by simp [hr])) hne

theorem recordRound_messages (o : TCOut) : (recordRound o).messages = o.st.messages := by
  unfold recordRound
  split <;> rfl

theorem limitRound_messages (maxIter : Option Nat) (rn : Nat) (st : LoopSt) :
    (limitRound maxIter rn st).messages = st.messages := by
  unfold limitRound
  split <;> rfl

/-- `recordRound` on a round that executed tool calls: the record stores
them. -/
theorem recordRound_nonempty (o : TCOut) (h : o.acc.isEmpty = false) :
    recordRound o =
      { o.st with
          current := { o.st.current with tool_calls := some o.acc }
          rounds := o.st.rounds ++ [{ o.st.current with tool_calls := some o.acc }] } := by
  unfold recordRound
  rw [if_neg (by simp [h])]

/-- C8.  A dispatched tool call whose execution fails is not retried by the
agent loop: the round raises nothing (so the retry wrapper never fires), the
failed result is recorded as an ordinary tool-call record on the round, the
transcript gains the assistant turn and the failed tool turn, and — with
`multi_turn` true and the round limit not reached — the `while` loop proceeds
to a subsequent round whose input is the dumped tool results, rather than
aborting the call. -/
theorem C8_tool_failure (env : Env) (a : AgentCfg) (maxIter : Option Nat)
    (st : LoopSt) (rest : List ClientStep) (content : Option String)
    (usage : Option Usage) (tc : ToolCall) (args : JsonObj) (tr : ToolResult)
    (hmt : a.multi_turn = true)
    (hcond : loopCond maxIter st.round_number = true)
    (hmax : atMax maxIter (st.round_number + 1) = false)
    (hph : pyStartsWith tc.function.name "handoff_to_" = false)
    (hpw : tc.function.name ≠ "work_done")
    (hjl : env.jsonLoads tc.function.arguments = some args)
    (hex : env.executeTool tc.function.name args = tr)
    (_hfail : tr.success = false) :
    ∃ st2 : LoopSt,
      processRound env a maxIter ⟨content, [tc], usage⟩ st = (none, st2, false) ∧
      runLoop env a maxIter (some ⟨content, [tc], usage⟩ :: rest) st =
        runLoop env a maxIter rest st2 ∧
      st2.messages = st.messages ++
        [Msg.assistantTool content tc.id tc.function.name tc.function.arguments,
         Msg.tool tc.id (env.dumpsToolResult tr)] ∧
      (∃ rd : Round, st2.rounds = st.rounds ++ [rd] ∧
        rd.tool_calls = some [⟨tc.function.name, args, tr⟩]) ∧
      st2.current.input = "Tool results: " ++ env.dumpsToolResult tr := by
  have hTC : processToolCalls env a content [tc]
      (accountRound a ⟨content, [tc], usage⟩ (st.round_number + 1) st) false [] =
      ⟨none,
       { accountRound a ⟨content, [tc], usage⟩ (st.round_number + 1) st with
          messages := (accountRound a ⟨content, [tc], usage⟩
              (st.round_number + 1) st).messages ++
            [Msg.assistantTool content tc.id tc.function.name tc.function.arguments,
             Msg.tool tc.id (env.dumpsToolResult tr)]
          memory := memAppend
            (memAppend (accountRound a ⟨content, [tc], usage⟩
                (st.round_number + 1) st).memory
              (Msg.assistantTool content tc.id tc.function.name tc.function.arguments))
            (Msg.tool tc.id (env.dumpsToolResult tr))
          last_tool_result := some tr },
       false, false, [⟨tc.function.name, args, tr⟩]⟩ := by
    rw [processToolCalls]
    rw [if_neg (by simp [hph])]
    rw [if_neg (by simpa using hpw)]
    simp only [hjl]
    rw [hex]
    rw [processToolCalls]
    simp
  set O : TCOut :=
    ⟨none,
     { accountRound a ⟨content, [tc], usage⟩ (st.round_number + 1) st with
        messages := (accountRound a ⟨content, [tc], usage⟩
            (st.round_number + 1) st).messages ++
          [Msg.assistantTool content tc.id tc.function.name tc.function.arguments,
           Msg.tool tc.id (env.dumpsToolResult tr)]
        memory := memAppend
          (memAppend (accountRound a ⟨content, [tc], usage⟩
              (st.round_number + 1) st).memory
            (Msg.assistantTool content tc.id tc.function.name tc.function.arguments))
          (Msg.tool tc.id (env.dumpsToolResult tr))
        last_tool_result := some tr },
     false, false, [⟨tc.function.name, args, tr⟩]⟩ with hO
  have hpr : processRound env a maxIter ⟨content, [tc], usage⟩ st =
      finishRound env a maxIter (st.round_number + 1) O := by
    rw [processRound_eq, hTC]
  have hbrk : brkCond a maxIter (st.round_number + 1) O = false := by
    simp [brkCond, hO, hmax, hmt]
  have hlim : limitRound maxIter (st.round_number + 1) (recordRound O) = recordRound O := by
    rcases limitRound_out maxIter (st.round_number + 1) (recordRound O) with hid | ⟨hm, -, -⟩
    · exact hid
    · exact absurd hm (by simp [hmax])
  have hrec : recordRound O =
      { O.st with
          current := { O.st.current with tool_calls := some O.acc }
          rounds := O.st.rounds ++ [{ O.st.current with tool_calls := some O.acc }] } :=
    recordRound_nonempty O (by simp [hO])
  have hfin : finishRound env a maxIter (st.round_number + 1) O =
      (none, nextRound env (recordRound O), false) := by
    rw [finishRound]
    rw [if_neg (by simp [hbrk])]
    rw [hlim]
  obtain ⟨aRounds, -, aMsgs, -⟩ :=
    accountRound_frame a ⟨content, [tc], usage⟩ (st.round_number + 1) st
  refine ⟨nextRound env (recordRound O), by rw [hpr, hfin], ?_, ?_, ?_, ?_⟩
  · rw [runLoop]
    rw [if_pos hcond]
    rw [hpr, hfin]
  · have h1 : (nextRound env (recordRound O)).messages = (recordRound O).messages := rfl
    rw [h1, recordRound_messages]
    have h2 : O.st.messages = (accountRound a ⟨content, [tc], usage⟩
        (st.round_number + 1) st).messages ++
        [Msg.assistantTool content tc.id tc.function.name tc.function.arguments,
         Msg.tool tc.id (env.dumpsToolResult tr)] := rfl
    rw [h2, aMsgs]
  · refine ⟨{ O.st.current with tool_calls := some O.acc }, ?_, rfl⟩
    have h1 : (nextRound env (recordRound O)).rounds = (recordRound O).rounds := rfl
    rw [h1, hrec]
    show O.st.rounds ++ _ = st.rounds ++ _
    have h2 : O.st.rounds = (accountRound a ⟨content, [tc], usage⟩
        (st.round_number + 1) st).rounds := rfl
    rw [h2, aRounds]
  · have h1 : (nextRound env (recordRound O)).current.input =
        "Tool results: " ++
          (((recordRound O).last_tool_result.map env.dumpsToolResult).getD "") := rfl
    rw [h1]
    have h2 : (recordRound O).last_tool_result = O.st.last_tool_result :=
      (recordRound_frame O).2.2.2.2.2.2.2.2.2.1
    have h3 : O.st.last_tool_result = some tr := rfl
    rw [h2, h3]
    rfl

/-! ### Concrete counterexample and code-bug theorems -/

/-- C1, counterexample.  One round whose response lists an ordinary tool call
`write_file` before a hand-off to `b ∈ handoffs`: the hand-off is honoured
(terminal reason `handoff`) yet `write_file` IS dispatched through the tool
invoker — its execution record appears in the round — contradicting the claim
that no other tool call in the same round (before or after the hand-off) is
dispatched. -/
theorem C1_counterexample :
    (Agent.process testEnv agentPlain 0 {} [] ctx0 [some respToolThenHandoff]
        "go" none true).result.map ProcResult.reason = some (some "handoff") ∧
    (Agent.process testEnv agentPlain 0 {} [] ctx0 [some respToolThenHandoff]
        "go" none true).rounds.map Round.tool_calls =
      [some [⟨"write_file", ⟨[("instructions", "argsA")]⟩, ⟨true, "ok"⟩⟩]] := by
  decide

/-- C4, counterexample.  A transient `json.JSONDecodeError` aborts attempt one
after its round's usage (1/2/3) was accumulated into the shared context; the
retry succeeds with a fresh round (usage 1/2/3 again).  The completed run
records rounds summing to 3 total tokens, but the context's accumulator holds
6: the claimed equality fails on runs with retried rounds. -/
theorem C4_counterexample :
    (Agent.process testEnv agentPlain 1 {} [] ctx0 [some respBadJson, some respText]
        "hello" none true).err = none ∧
    roundTotalSum (Agent.process testEnv agentPlain 1 {} [] ctx0
        [some respBadJson, some respText] "hello" none true).rounds = 3 ∧
    (Agent.process testEnv agentPlain 1 {} [] ctx0 [some respBadJson, some respText]
        "hello" none true).ctx.token_usage.total_tokens = 6 ∧ (6 : Nat) ≠ 3 := by
  decide

/-- C5, counterexample.  A call with `multi_turn = false` and
`max_iterations = 0` executes zero rounds: the `while` guard is false at entry,
no completion request is issued (the client script is returned unconsumed) and
the call still returns a result — not "exactly one round". -/
theorem C5_counterexample :
    (Agent.process testEnv agentPlain 0 {} [] ctx0 [some respText]
        "hello" (some 0) true).err = none ∧
    (Agent.process testEnv agentPlain 0 {} [] ctx0 [some respText]
        "hello" (some 0) true).rounds = [] ∧
    (Agent.process testEnv agentPlain 0 {} [] ctx0 [some respText]
        "hello" (some 0) true).rest = [some respText] := by
  decide

/-- C7, counterexample.  With retry limit above the failure count the call
succeeds, and its result and rounds contain only the successful attempt — but
the shared context is NOT clean: it retains the token-usage record of the
failed attempt's round (two accumulator detail entries against one recorded
round; context total 6 against the result's usage total 3), contradicting
"the failed attempts leave no partial round record ... in the Context". -/
theorem C7_counterexample :
    (Agent.process testEnv agentPlain 1 {} [] ctx0 [some respBadJson, some respText]
        "retryme" none true).err = none ∧
    ((Agent.process testEnv agentPlain 1 {} [] ctx0 [some respBadJson, some respText]
        "retryme" none true).ctx.token_usage.details.map TokenUsageEntry.round_number) =
      [1, 1] ∧
    (Agent.process testEnv agentPlain 1 {} [] ctx0 [some respBadJson, some respText]
        "retryme" none true).rounds.length = 1 ∧
    (Agent.process testEnv agentPlain 1 {} [] ctx0 [some respBadJson, some respText]
        "retryme" none true).result.map (fun r => r.usage.total_tokens) = some 3 ∧
    (Agent.process testEnv agentPlain 1 {} [] ctx0 [some respBadJson, some respText]
        "retryme" none true).ctx.token_usage.total_tokens = 6 := by
  decide

/-- C10, code bug.  `Context.document`, `Context.history` and
`Context.used_tools` are Python class attributes with mutable defaults that
`__init__` never re-assigns, so every instance shares them.  Evaluation at the
failing input: construct a context, mutate its document and history, then
construct a second, "fresh" context — the collections the second instance
observes are non-empty and hold exactly the first instance's data, so a fresh
context does not start empty and mutations are observable across instances. -/
theorem C10_class_attribute_sharing :
    (contextInit
        (setDocument (addHistory (contextInit {} "first" none).2 "step1" sampleResult)
          "doc" "v")
        "second" none).2.history = [⟨"step1", sampleResult⟩] ∧
    (contextInit
        (setDocument (addHistory (contextInit {} "first" none).2 "step1" sampleResult)
          "doc" "v")
        "second" none).2.document = [("doc", "v")] ∧
    ([⟨"step1", sampleResult⟩] : List HistoryEntry) ≠ [] := by
  decide

/-! ### Witnesses: the claim theorems applied at concrete inputs -/

/-- C1 witness: the amended short-circuit theorem at a concrete list with one
dispatched call before the hand-off and one ignored call after it. -/
theorem C1_amended_witness :
    processToolCalls testEnv agentPlain none (preCalls ++ hcCall :: postCalls) stGo false [] =
      ⟨none,
       { (processToolCalls testEnv agentPlain none preCalls stGo false []).st with
          handoff_instructions :=
            some ((⟨[("instructions", "doX")]⟩ : JsonObj).get "instructions" "")
          current := { (processToolCalls testEnv agentPlain none preCalls
              stGo false []).st.current with
                handoff := some agentB.name
                reason := some "handoff" }
          handoff_target := some agentB
          final_reason := some "handoff" },
       true,
       (processToolCalls testEnv agentPlain none preCalls stGo false []).workDone,
       (processToolCalls testEnv agentPlain none preCalls stGo false []).acc⟩ :=
  C1_amended testEnv agentPlain none preCalls postCalls stGo false [] hcCall
    ⟨[("instructions", "doX")]⟩ agentB (by decide) (by decide) (by decide)
    (by decide) (by decide)

/-- C2 witness: a model-chosen hand-off lands inside the configured set. -/
theorem C2_witness :
    (⟨agentB, "doX"⟩ : HandoffInfo).to ∈ agentPlain.handoffs ∨
    agentPlain.next_agent = some (⟨agentB, "doX"⟩ : HandoffInfo).to :=
  C2_handoff_containment testEnv agentPlain 0 {} [] ctx0 [some respToolThenHandoff]
    "go" none true resultHandoff ⟨agentB, "doX"⟩ (by decide) (by decide)

/-- C3 witness: the forced successor appears as the result's hand-off
target. -/
theorem C3_witness :
    ∃ instr, resultForced.handoff = some ⟨agentB, instr⟩ :=
  (C3_forced_successor testEnv agentForced 0 {} [] ctx0 [some respText] "hi" none true
    agentB resultForced (by decide) (by decide)).1

/-- C4 witness: on a retry-free completed run the context grows by at least
(here: exactly) the recorded per-round sums. -/
theorem C4_amended_witness :
    ctx0.token_usage.total_tokens +
        roundTotalSum (Agent.process testEnv agentPlain 0 {} [] ctx0 [some respText]
          "hello" none true).rounds ≤
      (Agent.process testEnv agentPlain 0 {} [] ctx0 [some respText]
        "hello" none true).ctx.token_usage.total_tokens :=
  (C4_amended testEnv agentPlain 0 {} [] ctx0 [some respText] "hello" none true
    resultHello (by unfold WfScript; decide) (by decide)).2.2.1

/-- C5 witness: with `multi_turn = false` and no round cap, one round runs and
one completion response is consumed. -/
theorem C5_amended_witness :
    (Agent.process testEnv agentPlain 0 {} [] ctx0 [some respText]
      "hello" none true).rounds.length = 1 :=
  (C5_amended testEnv agentPlain 0 {} [] ctx0 [some respText] "hello" none true rfl
    (Or.inl rfl) (by decide)).1

/-- C6 witness: a two-round run that hits `max_iterations = 2` ends with the
`round_limit` reason. -/
theorem C6_round_cap_witness :
    lastRoundReason (Agent.process testEnv agentMulti 0 {} [] ctx0
        [some respOneTool, some respOneTool] "go" (some 2) true).rounds = some "handoff" ∨
    lastRoundReason (Agent.process testEnv agentMulti 0 {} [] ctx0
        [some respOneTool, some respOneTool] "go" (some 2) true).rounds = some "work_done" ∨
    lastRoundReason (Agent.process testEnv agentMulti 0 {} [] ctx0
        [some respOneTool, some respOneTool] "go" (some 2) true).rounds = some "round_limit" :=
  (C6_round_cap testEnv agentMulti 0 {} [] ctx0 [some respOneTool, some respOneTool]
    "go" true 2 resultLimit rfl (by decide)).2 (by decide) (by decide)

/-- C7 witness: an exhausted failure budget surfaces with no result. -/
theorem C7_amended_witness :
    (processRetry testEnv agentPlain 0 [] ctx0 [none] "x" none true).result = none :=
  (C7_amended testEnv agentPlain 0 [] ctx0 [none] "x" none true).2 (by decide)

/-- C8 witness: a failing tool call is recorded, transcribed and continues the
loop on a concrete multi-turn agent. -/
theorem C8_tool_failure_witness :
    ∃ st2 : LoopSt,
      processRound testEnv agentMulti none
          ⟨some "working", [tcFail], none⟩ stMulti = (none, st2, false) ∧
      runLoop testEnv agentMulti none (some ⟨some "working", [tcFail], none⟩ :: []) stMulti =
        runLoop testEnv agentMulti none [] st2 ∧
      st2.messages = stMulti.messages ++
        [Msg.assistantTool (some "working") tcFail.id tcFail.function.name
          tcFail.function.arguments,
         Msg.tool tcFail.id (testEnv.dumpsToolResult ⟨false, "boom"⟩)] ∧
      (∃ rd : Round, st2.rounds = stMulti.rounds ++ [rd] ∧
        rd.tool_calls = some [⟨tcFail.function.name, ⟨[("instructions", "argsF")]⟩,
          ⟨false, "boom"⟩⟩]) ∧
      st2.current.input = "Tool results: " ++ testEnv.dumpsToolResult ⟨false, "boom"⟩ :=
  C8_tool_failure testEnv agentMulti none stMulti [] (some "working") none tcFail
    ⟨[("instructions", "argsF")]⟩ ⟨false, "boom"⟩ rfl (by decide) (by decide)
    (by decide) (by decide) (by decide) (by decide) (by decide)

/-- C9 witness: one history entry, holding the agent's name and the whole
result, is appended by a concrete completed call. -/
theorem C9_history_append_witness :
    (Agent.process testEnv agentPlain 0 {} [] ctx0 [some respText]
        "hello" none true).cv.history =
      ({} : ClassVars).history ++ [⟨agentPlain.name, resultHello⟩] :=
  C9_history_append testEnv agentPlain 0 {} [] ctx0 [some respText] "hello" none true
    resultHello (by decide)

end AgileMind
